import Mathlib

/-!
Verification of the wayleave letter-generation and PDF-scanning core.

The definitions below are a shallow embedding of the Python sources:
`letter_generator/document_processor.py`, `letter_generator/formatter.py`,
`document_classifier.py` and `pdf_scanner.py`.  Text is modelled as
`List Char` (with `String` wrappers at the interface); the regular
expressions used by the Python code are embedded as explicit scanning
functions that reproduce the backtracking behaviour of `re.search` /
`re.match` on the patterns in question.
-/

namespace Wayleave

/-! ### Character classes (Python `re` semantics, ASCII range) -/

/-- Python `\s` for ASCII text: space, tab, newline, carriage return,
vertical tab, form feed. -/
def isSpaceC (c : Char) : Bool :=
  c = ' ' || c = '\t' || c = '\n' || c = '\x0d' || c = '\x0b' || c = '\x0c'

/-- `[A-Z]` as used by the (non-ignorecase) postcode validation regex. -/
def isUpperAlpha (c : Char) : Bool := 'A' ≤ c && c ≤ 'Z'

/-- `\d` (ASCII digits). -/
def isDigitC (c : Char) : Bool := '0' ≤ c && c ≤ '9'

/-- The 26 lowercase→uppercase ASCII pairs; Python `str.upper` on the
characters that actually occur in the modelled documents. -/
def upperPairs : List (Char × Char) :=
  [('a','A'),('b','B'),('c','C'),('d','D'),('e','E'),('f','F'),('g','G'),
   ('h','H'),('i','I'),('j','J'),('k','K'),('l','L'),('m','M'),('n','N'),
   ('o','O'),('p','P'),('q','Q'),('r','R'),('s','S'),('t','T'),('u','U'),
   ('v','V'),('w','W'),('x','X'),('y','Y'),('z','Z')]

/-- The 26 uppercase→lowercase ASCII pairs; Python `str.lower`. -/
def lowerPairs : List (Char × Char) :=
  [('A','a'),('B','b'),('C','c'),('D','d'),('E','e'),('F','f'),('G','g'),
   ('H','h'),('I','i'),('J','j'),('K','k'),('L','l'),('M','m'),('N','n'),
   ('O','o'),('P','p'),('Q','q'),('R','r'),('S','s'),('T','t'),('U','u'),
   ('V','v'),('W','w'),('X','x'),('Y','y'),('Z','z')]

/-- Python `str.upper` on a single character (ASCII). -/
def toUpperPy (c : Char) : Char :=
  match upperPairs.lookup c with
  | some d => d
  | none => c

/-- Python `str.lower` on a single character (ASCII). -/
def toLowerPy (c : Char) : Char :=
  match lowerPairs.lookup c with
  | some d => d
  | none => c

/-- `[A-Z]` under `re.IGNORECASE`: any ASCII letter.  Lowercase letters are
characterised as the domain of the case table, which is extensionally
`'a' ≤ c ∧ c ≤ 'z'`. -/
def isAlphaCI (c : Char) : Bool := isUpperAlpha c || (upperPairs.lookup c).isSome

/-- `[A-Z\d]` under `re.IGNORECASE`. -/
def isAlnumCI (c : Char) : Bool := isAlphaCI c || isDigitC c

/-- `[A-Z\d]` (no ignorecase, as in the validation regex). -/
def isAlnumU (c : Char) : Bool := isUpperAlpha c || isDigitC c

/-! ### List-of-characters utilities (Python string methods) -/

/-- Python `str.strip()`: drop leading and trailing whitespace. -/
def stripPy (l : List Char) : List Char :=
  ((l.dropWhile isSpaceC).reverse.dropWhile isSpaceC).reverse

/-- Helper for `collapseWs`; the flag records whether we are inside a
whitespace run (whose single replacement space was already emitted). -/
def collapseWsAux : Bool → List Char → List Char
  | _, [] => []
  | inRun, c :: rest =>
    if isSpaceC c then
      if inRun then collapseWsAux true rest
      else ' ' :: collapseWsAux true rest
    else c :: collapseWsAux false rest

/-- Python `re.sub(r'\s+', ' ', s)`: replace every maximal whitespace run
by a single space. -/
def collapseWs (l : List Char) : List Char := collapseWsAux false l

/-- The characters stripped by `re.sub(r'[<>:"/\\|?*]', '', s)`. -/
def illegalFilenameChars : List Char := ['<', '>', ':', '"', '/', '\\', '|', '?', '*']

/-- Python `re.sub(r'[<>:"/\\|?*]', '', s)`. -/
def removeIllegal (l : List Char) : List Char :=
  l.filter (fun c => !illegalFilenameChars.contains c)

/-- Substring occurrence, i.e. Python's `pat in s` (for nonempty `pat`). -/
def containsSub (pat : List Char) : List Char → Bool
  | [] => pat.isPrefixOf []
  | c :: rest => pat.isPrefixOf (c :: rest) || containsSub pat rest

/-- String-level wrapper for `containsSub`. -/
def containsSubstr (s pat : String) : Bool := containsSub pat.data s.data

/-- Helper for `replacePy`: fuel-indexed so the recursion is structural
(each step consumes at least one character, so `fuel = length` suffices). -/
def replacePyAux (pat repl : List Char) : Nat → List Char → List Char
  | _, [] => []
  | 0, l => l
  | fuel + 1, c :: rest =>
    if pat ≠ [] && pat.isPrefixOf (c :: rest) then
      repl ++ replacePyAux pat repl fuel ((c :: rest).drop pat.length)
    else c :: replacePyAux pat repl fuel rest

/-- Python `s.replace(pat, repl)` (left-to-right, non-overlapping). -/
def replacePy (pat repl l : List Char) : List Char :=
  replacePyAux pat repl l.length l

/-- Python `s.split(sep)` for a one-character separator (keeps empty parts). -/
def splitOnCharPy (sep : Char) : List Char → List (List Char)
  | [] => [[]]
  | c :: rest =>
    let r := splitOnCharPy sep rest
    if c = sep then [] :: r
    else
      match r with
      | [] => [[c]]
      | p :: ps => (c :: p) :: ps

/-- Helper for `splitWsPy`; `acc` is the current token, reversed. -/
def splitWsAux : List Char → List Char → List (List Char)
  | acc, [] => if acc.isEmpty then [] else [acc.reverse]
  | acc, c :: rest =>
    if isSpaceC c then
      if acc.isEmpty then splitWsAux [] rest
      else acc.reverse :: splitWsAux [] rest
    else splitWsAux (c :: acc) rest

/-- Python `s.split()` (no argument): split on whitespace runs, dropping
empty pieces. -/
def splitWsPy (l : List Char) : List (List Char) := splitWsAux [] l

/-- Join a list of character lists with a separator. -/
def joinSep (sep : List Char) : List (List Char) → List Char
  | [] => []
  | [p] => p
  | p :: q :: rest => p ++ sep ++ joinSep sep (q :: rest)

/-- Map Python `str.upper` over a string. -/
def upperList (l : List Char) : List Char := l.map toUpperPy

/-- Map Python `str.lower` over a string. -/
def lowerList (l : List Char) : List Char := l.map toLowerPy

/-! ### The postcode pattern `[A-Z]{1,2}\d[A-Z\d]?\s*\d[A-Z]{2}`

The same pattern is used unanchored with `re.IGNORECASE` by both document
extractors (`re.search`) and anchored without `IGNORECASE` by
`validate_postcode` (`re.match` on the upper-cased input).  The matcher is
parameterised by the letter class (`isAlphaCI` vs `isUpperAlpha`) and the
optional-slot class.  Greedy backtracking of the Python engine is
reproduced by the order of the `<|>` alternatives; `\s*` needs no
backtracking because the token after it starts with a digit, which is
never whitespace. -/

/-- Match `\s*\d[A-Z]{2}` at the head of `l`; returns the consumed
characters and the rest. -/
def matchWsD2 (alpha : Char → Bool) (l : List Char) : Option (List Char × List Char) :=
  let ws := l.takeWhile isSpaceC
  match l.drop ws.length with
  | d :: x :: y :: rest =>
    if isDigitC d && alpha x && alpha y then some (ws ++ [d, x, y], rest) else none
  | _ => none

/-- Match `[A-Z\d]?\s*\d[A-Z]{2}` at the head of `l` (greedy option first,
as the Python engine tries it). -/
def matchOptD2 (alpha alnum : Char → Bool) (l : List Char) : Option (List Char × List Char) :=
  (match l with
   | c :: rest =>
     if alnum c then (matchWsD2 alpha rest).map (fun p => (c :: p.1, p.2)) else none
   | [] => none)
  <|> matchWsD2 alpha l

/-- Match the full postcode pattern at the head of `l` (two letters tried
before one, as the greedy `{1,2}` does; the two alternatives are mutually
exclusive because the second character must be a letter in one and a digit
in the other). -/
def matchPcAt (alpha alnum : Char → Bool) (l : List Char) : Option (List Char × List Char) :=
  (match l with
   | a :: b :: d :: rest =>
     if alpha a && alpha b && isDigitC d then
       (matchOptD2 alpha alnum rest).map (fun p => (a :: b :: d :: p.1, p.2))
     else none
   | _ => none)
  <|> (match l with
   | a :: d :: rest =>
     if alpha a && isDigitC d then
       (matchOptD2 alpha alnum rest).map (fun p => (a :: d :: p.1, p.2))
     else none
   | _ => none)

/-- `re.search` of the postcode pattern with `IGNORECASE`: first matching
position, returning (prefix before the match, matched text). -/
def findPc : List Char → Option (List Char × List Char)
  | [] => none
  | c :: rest =>
    match matchPcAt isAlphaCI isAlnumCI (c :: rest) with
    | some (m, _) => some ([], m)
    | none => (findPc rest).map (fun p => (c :: p.1, p.2))

/-- `validate_postcode` from `formatter.py`:
`bool(re.match(r'^[A-Z]{1,2}\d[A-Z\d]?\s*\d[A-Z]{2}$', postcode.strip().upper()))`.
The input is stripped first, so `$` coincides with end-of-input, and the
greedy matcher consumes the whole string exactly when the anchored pattern
matches (the option slot is tried long-first, and a longer consume can
never block a full match that a shorter one allows, see the comment on
`matchPcAt`). -/
def validate_postcode (s : String) : Bool :=
  match matchPcAt isUpperAlpha isAlnumU (upperList (stripPy s.data)) with
  | some (_, rest) => rest.isEmpty
  | none => false

/-! ### Document extraction (`letter_generator/document_processor.py`) -/

/-- The exception taxonomy of `letter_generator/exceptions.py` that the
extraction layer can raise.  `ValidationError` and `ContentError` are
unrelated classes (both direct subclasses of `Exception`). -/
inductive PyErr where
  | validation (msg : String)
  | content (msg : String)
  | formatting (msg : String)
deriving DecidableEq, Repr

deriving instance DecidableEq for Except

/-- `validate_content` from `document_processor.py`. -/
def validate_content (content : String) (letter_type : String) : Except PyErr Unit :=
  if content.data.isEmpty then
    .error (.validation "Document content is empty or invalid")
  else
    let c := stripPy content.data
    if c.isEmpty then
      .error (.validation "Document content is empty after trimming whitespace")
    else if c.length < 50 then
      .error (.validation "Document content is too short to be valid")
    else if letter_type = "annual" then
      if !containsSub "ELECTRICITY ACT 1989".data c
          && !containsSub "Re: Electrical Equipment".data c then
        .error (.validation "Content does not appear to be a valid annual wayleave document")
      else .ok ()
    else if letter_type = "15-year" then
      if !containsSub "This Agreement".data c && !containsSub "AGREED TERMS".data c then
        .error (.validation "Content does not appear to be a valid 15-year wayleave document")
      else .ok ()
    else .ok ()

/-- `clean_address_line` from `document_processor.py`. -/
def clean_address_line (line : List Char) : List Char :=
  if line.isEmpty || line.all isSpaceC then []
  else
    let l1 := collapseWs line
    let l2 := replacePy " AND ".data " ".data (replacePy " and ".data " ".data l1)
    if l2.contains '(' then
      let parts := splitWsPy l2
      if parts.isEmpty then stripPy l2
      else
        let cleaned := parts.takeWhile (fun p => !p.contains '(')
        if cleaned.isEmpty then parts.headD [] else joinSep [' '] cleaned
    else stripPy l2

/-- `get_first_names` from `document_processor.py`. -/
def get_first_names (full_names : List Char) : List Char :=
  if full_names.isEmpty then []
  else
    let normalized :=
      replacePy " & ".data ",".data
        (replacePy "AND ".data ",".data
          (replacePy " AND ".data ",".data full_names))
    let names := ((splitOnCharPy ',' normalized).map stripPy).filter (fun n => !n.isEmpty)
    let first_names := names.filterMap (fun n =>
      match splitWsPy n with
      | [] => none
      | w :: _ =>
        match w with
        | [] => none
        | c :: cs => some (toUpperPy c :: cs.map toLowerPy))
    match first_names with
    | [a, b] => a ++ " and ".data ++ b
    | [] => []
    | [a] => a
    | more => joinSep ", ".data more.dropLast ++ " and ".data ++ more.getLast!

/-- Backtracking for `\s+([^\n]+)` after the literal `I/We,`: the greedy
`\s+` takes `k` characters (largest first); the capture `[^\n]+` must then
be nonempty. -/
def iweCapture (cs : List Char) : Nat → Option (List Char)
  | 0 => none
  | k + 1 =>
    let cap := (cs.drop (k + 1)).takeWhile (fun c => c ≠ '\n')
    if cap.isEmpty then iweCapture cs k else some cap

/-- `re.search(r'I/We,\s+([^\n]+)', content)`: leftmost match, returning
the captured group. -/
def findIWe : List Char → Option (List Char)
  | [] => none
  | c :: rest =>
    (if "I/We,".data.isPrefixOf (c :: rest) then
      let after := (c :: rest).drop 5
      iweCapture after (after.takeWhile isSpaceC).length
    else none)
    <|> findIWe rest

/-- The lazy capture of `(.*?)(?=being|$)` under `re.DOTALL`: consume
characters until `being` starts, or end of input, or a final newline
(`$` also matches just before a trailing newline). -/
def takeUntilBeing : List Char → List Char
  | [] => []
  | c :: rest =>
    if "being".data.isPrefixOf (c :: rest) || (c = '\n' && rest.isEmpty) then []
    else c :: takeUntilBeing rest

/-- `re.search(r'of\s+(.*?)(?=being|$)', content, re.DOTALL)`: leftmost
occurrence of `of` followed by at least one whitespace character; the lazy
capture then runs to the first `being` or the end. -/
def findOf : List Char → Option (List Char)
  | [] => none
  | c :: rest =>
    (if "of".data.isPrefixOf (c :: rest) then
      let after := (c :: rest).drop 2
      let ws := after.takeWhile isSpaceC
      if ws.isEmpty then none else some (takeUntilBeing (after.drop ws.length))
    else none)
    <|> findOf rest

/-- The address dictionary built by the extractors: keys
`address_1 .. address_k` (`k ≤ 6`) in order, plus `postcode`. -/
structure AddressDict where
  lines : List String
  postcode : String
deriving DecidableEq, Repr

/-- The result dictionary of the extractors. -/
structure ExtractedInfo where
  full_names : String
  salutation_name : String
  address : AddressDict
deriving DecidableEq, Repr

/-- The `except ContentError: raise / except Exception as e: raise
ContentError(prefix + str(e))` wrapper at the end of both extractors:
`ValidationError` is not a subclass of `ContentError`, so it is caught by
the blanket clause and re-raised as a `ContentError`. -/
def wrapExtractorErrors (pfx : String) : Except PyErr ExtractedInfo → Except PyErr ExtractedInfo
  | .error (.content m) => .error (.content m)
  | .error (.validation m) => .error (.content (pfx ++ m))
  | .error (.formatting m) => .error (.content (pfx ++ m))
  | .ok r => .ok r

/-- Shared tail of both extractors: split `address_parts` before the
postcode into comma-separated, cleaned lines; cap at six lines. -/
def buildAddressLines (parts : List (List Char)) : List String :=
  ((parts.filter (fun p => !p.isEmpty && !p.all isSpaceC)).take 6).map
    (fun p => String.mk p)

/-- `extract_names_and_address_annual` from `document_processor.py`. -/
def extract_names_and_address_annual (content : String) : Except PyErr ExtractedInfo :=
  wrapExtractorErrors "Error processing annual document: " <|
    match validate_content content "annual" with
    | .error e => .error e
    | .ok _ =>
      match findIWe content.data with
      | none => .error (.content "Could not find names in document")
      | some cap =>
        let names := stripPy cap
        match findOf content.data with
        | none => .error (.content "Could not find address starting with 'of'")
        | some acap =>
          let address := stripPy acap
          match findPc address with
          | none => .error (.content "Could not find valid postcode in address")
          | some (pre, m) =>
            let postcode := upperList m
            let address_parts0 := stripPy pre
            let address_parts :=
              if address_parts0.getLast? = some ',' then address_parts0.dropLast
              else address_parts0
            let parts := (splitOnCharPy ',' address_parts).map clean_address_line
            let addr : AddressDict := ⟨buildAddressLines parts, String.mk postcode⟩
            .ok ⟨String.mk names, String.mk (get_first_names names), addr⟩

/-! ### 15-year pattern `\(1\)\s*(.*?)\s+of\s*(.*?)\s*(?=,\s*|\))` (DOTALL)

Backtracking analysis (reproduced by the functions below):
* after `of`, the tail `\s*(.*?)\s*(?=,\s*|\))` succeeds iff a `,` or `)`
  occurs later; group 2 is then everything up to the first such character,
  stripped of surrounding whitespace (the leading `\s*` is greedy, the
  trailing `\s*` absorbs the whitespace run before the stop character),
  and the match ends at the stop character;
* `\s+of` needs no internal backtracking (`o` is not whitespace, so only
  the maximal whitespace run can precede it);
* the lazy group 1 grows from the empty capture; the greedy `\s*` after
  `\(1\)` is tried longest-first. -/

/-- Split at the first `,` or `)`: returns (prefix, rest from the stop
character); `none` when no stop character occurs. -/
def splitAtStop : List Char → Option (List Char × List Char)
  | [] => none
  | c :: rest =>
    if c = ',' || c = ')' then some ([], c :: rest)
    else (splitAtStop rest).map (fun p => (c :: p.1, p.2))

/-- Match `\s*(.*?)\s*(?=,\s*|\))` at the head (after `of`); returns
(captured group 2, rest from the match end). -/
def matchTail15 (cs : List Char) : Option (List Char × List Char) :=
  (splitAtStop cs).map (fun p => (stripPy p.1, p.2))

/-- Lazy group 1 followed by `\s+of` and the tail: try the empty capture
at the current position first, then grow it one character at a time. -/
def tryG1 : List Char → Option (List Char × List Char × List Char)
  | [] => none
  | c :: rest =>
    (let ws := (c :: rest).takeWhile isSpaceC
     if ws.isEmpty then none
     else
       let afterWs := (c :: rest).drop ws.length
       if "of".data.isPrefixOf afterWs then
         (matchTail15 (afterWs.drop 2)).map (fun p => ([], p.1, p.2))
       else none)
    <|> (tryG1 rest).map (fun p => (c :: p.1, p.2.1, p.2.2))

/-- Greedy `\s*` after `\(1\)`: try the longest whitespace prefix first,
backtracking one character at a time. -/
def tryA (cs : List Char) : Nat → Option (List Char × List Char × List Char)
  | 0 => tryG1 cs
  | a + 1 => tryG1 (cs.drop (a + 1)) <|> tryA cs a

/-- `re.search` of the 15-year pattern: leftmost `(1)` from which the rest
of the pattern matches; returns (group 1, group 2, rest from match end). -/
def find15 : List Char → Option (List Char × List Char × List Char)
  | [] => none
  | c :: rest =>
    (if "(1)".data.isPrefixOf (c :: rest) then
      let after := (c :: rest).drop 3
      tryA after (after.takeWhile isSpaceC).length
    else none)
    <|> find15 rest

/-- `extract_names_and_address_fifteen_year` from `document_processor.py`.
Note: unlike the annual extractor it performs no `validate_content` call. -/
def extract_names_and_address_fifteen_year (content : String) : Except PyErr ExtractedInfo :=
  wrapExtractorErrors "Error processing 15-year document: " <|
    match find15 content.data with
    | none => .error (.content "Could not find names and address in 15-year document")
    | some (g1, g2, rest) =>
      let names := stripPy g1
      let initial_address := clean_address_line (stripPy g2)
      let address_text := stripPy rest
      match findPc address_text with
      | none => .error (.content "Could not find valid postcode in address")
      | some (pre, m) =>
        let postcode := upperList m
        let address_parts0 := stripPy pre
        let address_parts :=
          if address_parts0.getLast? = some ',' then address_parts0.dropLast
          else address_parts0
        let all_parts :=
          initial_address :: (splitOnCharPy ',' address_parts).map clean_address_line
        let addr : AddressDict := ⟨buildAddressLines all_parts, String.mk postcode⟩
        .ok ⟨String.mk names, String.mk (get_first_names names), addr⟩

/-! ### Formatting (`letter_generator/formatter.py`) -/

/-- Fuel-indexed helper for `splitAndSeps` (each step consumes at least
one character, so `fuel = length` suffices and the recursion is
structural). -/
def splitAndSepsAux : Nat → List Char → List (List Char)
  | _, [] => [[]]
  | 0, l => [l]
  | fuel + 1, c :: rest =>
    if " AND ".data.isPrefixOf (c :: rest) then
      [] :: splitAndSepsAux fuel ((c :: rest).drop 5)
    else if " & ".data.isPrefixOf (c :: rest) then
      [] :: splitAndSepsAux fuel ((c :: rest).drop 3)
    else
      match splitAndSepsAux fuel rest with
      | [] => [[c]]
      | p :: ps => (c :: p) :: ps

/-- `re.split(' AND | & ', s)`: cut at every occurrence of either
separator, trying `' AND '` first at each position. -/
def splitAndSeps (l : List Char) : List (List Char) := splitAndSepsAux l.length l

/-- The inner `title_case` of `format_names`: lower-case the name, then
capitalize the first letter of every part delimited by `-` or whitespace
(Python splits with `re.split(r'([-\s])', ...)` and capitalizes the
even-indexed pieces; a piece's first character is exactly a character at
the start or right after a delimiter). -/
def titleCaseAux : Bool → List Char → List Char
  | _, [] => []
  | atStart, c :: rest =>
    if c = '-' || isSpaceC c then c :: titleCaseAux true rest
    else (if atStart then toUpperPy c else c) :: titleCaseAux false rest

/-- `title_case` from `format_names`. -/
def titleCase (l : List Char) : List Char := titleCaseAux true (lowerList l)

/-- `format_names` from `formatter.py` (without the salutation override,
which callers in this repository pass as `None`): returns
(header names, salutation names), or a `FormattingError`. -/
def format_names (full_names : String) : Except PyErr (String × String) :=
  if full_names.data.isEmpty then
    .error (.formatting "Error formatting names: Names string is empty")
  else
    let names_list :=
      ((splitAndSeps full_names.data).map stripPy).filter (fun n => !n.isEmpty)
        |>.map titleCase
    if names_list.isEmpty then
      .error (.formatting "Error formatting names: No valid names found")
    else
      let header_names := joinSep " & ".data names_list
      let first_names := names_list.filterMap (fun n => (splitWsPy n).head?)
      match first_names with
      | [a, b] => .ok (String.mk header_names, String.mk (a ++ " and ".data ++ b))
      | [] =>
        .error (.formatting "Error formatting names: list index out of range")
      | [a] => .ok (String.mk header_names, String.mk a)
      | more =>
        .ok (String.mk header_names,
          String.mk (joinSep ", ".data more.dropLast ++ " and ".data ++ more.getLast!))

/-- `sanitize_component` from `generate_filename`. -/
def sanitize_component (component : List Char) : List Char :=
  if component.isEmpty then []
  else removeIllegal (collapseWs (stripPy component))

/-- `generate_filename` from `formatter.py` on the canonical address shape
(`address_1..address_6` in order plus `postcode`; the Python loop reads at
most six line keys). -/
def generate_filename (addr : AddressDict) : String :=
  let lineParts :=
    ((addr.lines.take 6).filter (fun l => !l.data.isEmpty)).map
      (fun l => sanitize_component l.data)
  let allParts :=
    if addr.postcode.data.isEmpty then lineParts
    else lineParts ++ [sanitize_component addr.postcode.data]
  let filename := joinSep ", ".data (allParts.filter (fun p => !p.isEmpty))
  if ".pdf".data.isSuffixOf (lowerList filename) then String.mk filename
  else String.mk (filename ++ ".pdf".data)

/-! ### Wayleave dialect classifier (`document_classifier.py`) -/

/-- The annual-dialect indicator phrases. -/
def annualIndicators : List String :=
  ["SCHEDULE OF PAYMENTS", "£ per annum", "Back Pay",
   "The Company shall pay to me/us during the existence of the works"]

/-- The 15-year-dialect indicator phrases. -/
def fifteenYearIndicators : List String :=
  ["means a term commencing on the date hereof", "the Term", "the Wayleave Payment",
   "15 years", "following the expiry of 15 years"]

/-- `identify_wayleave_type` from `document_classifier.py`. -/
def identify_wayleave_type (document_content : String) : String :=
  let annual_matches := (annualIndicators.filter
    (fun i => containsSub i.data document_content.data)).length
  let fifteen_year_matches := (fifteenYearIndicators.filter
    (fun i => containsSub i.data document_content.data)).length
  let has_per_annum_payment := containsSub "£ per annum".data document_content.data
  let has_term_definition := containsSub "\x22the Term\x22 means".data document_content.data
  if annual_matches > fifteen_year_matches || has_per_annum_payment then "annual"
  else if fifteen_year_matches > annual_matches || has_term_definition then "15-year"
  else "unknown"

/-! ### PDF classification and folder categorisation (`pdf_scanner.py`)

`analyze_pdf_type` reads a PDF through external collaborators (PyMuPDF
text extraction, OpenCV image metrics, optional Tesseract OCR).  A PDF is
therefore modelled by the signals those collaborators deliver: its
filename, extracted text, the image-analysis verdict (`is_map_like` from
`analyze_image_content`) and the OCR text list; `TESSERACT_AVAILABLE` is
threaded as a parameter `tess`. -/

/-- The classification outcomes (`PDFType` in `pdf_scanner.py`). -/
inductive PDFType where
  | document
  | map
  | unknown
deriving DecidableEq, Repr

/-- A PDF as seen through the scanner's collaborators. -/
structure PDFFile where
  name : String
  text : String
  isMapLike : Bool
  ocrTexts : List String
deriving DecidableEq, Repr

/-- `document_keywords` from `analyze_pdf_type`. -/
def documentKeywords : List String :=
  ["consent", "agreement", "contract", "wayleave", "permission",
   "terms", "conditions", "signature", "signed", "dated",
   "hereby", "parties", "rights", "obligations"]

/-- `map_keywords` from `analyze_pdf_type`. -/
def mapKeywords : List String :=
  ["map", "scale", "legend", "north arrow", "coordinates",
   "projection", "latitude", "longitude", "grid", "terrain",
   "topographic", "elevation", "boundary", "region", "km", "miles",
   "contour", "geographic", "cartographic", "spatial", "compass",
   "route", "area", "location", "distance", "direction", "layout",
   "site plan", "lv", "layout view"]

/-- Count how many keywords of a vocabulary occur in a (lowercased) text. -/
def keywordCount (keywords : List String) (textLower : List Char) : Nat :=
  (keywords.filter (fun k => containsSub k.data textLower)).length

/-- The map-side filename tokens. -/
def mapNameTokens : List String := ["lv.", "layout", "map", "plan"]

/-- The document-side filename tokens. -/
def docNameTokens : List String := ["consent", "agreement", "contract", "wayleave"]

/-- `len(text.split())` for the word-count heuristic. -/
def wordCount (text : String) : Nat := (splitWsPy text.data).length

/-- `analyze_pdf_type` from `pdf_scanner.py` (decision pipeline over the
collaborator signals). -/
def analyze_pdf_type (tess : Bool) (pdf : PDFFile) : PDFType :=
  let text_lower := lowerList pdf.text.data
  let doc0 := keywordCount documentKeywords text_lower
  let map0 := keywordCount mapKeywords text_lower
  let filename_lower := lowerList pdf.name.data
  let map1 := map0 + (if mapNameTokens.any (fun t => containsSub t.data filename_lower) then 2 else 0)
  let doc1 := doc0 + (if docNameTokens.any (fun t => containsSub t.data filename_lower) then 2 else 0)
  let map2 := map1 + (if pdf.isMapLike then 3 else 0)
  let ocr_text := lowerList (joinSep [' '] (pdf.ocrTexts.map String.data))
  let doc2 := doc1 + (if tess then keywordCount documentKeywords ocr_text else 0)
  let map3 := map2 + (if tess then keywordCount mapKeywords ocr_text else 0)
  let wc := wordCount pdf.text
  let doc3 := doc2 + (if wc > 300 then 2 else 0)
  let map4 := map3 + (if !(wc > 300) && wc < 100 && pdf.isMapLike then 2 else 0)
  if map4 > doc3 && map4 ≥ 3 then PDFType.map
  else if doc3 > map4 && doc3 ≥ 3 then PDFType.document
  else PDFType.unknown

/-- The combined map score of `analyze_pdf_type` (spec-side restatement of
the same pipeline, used to state the decision rule). -/
def mapScore (tess : Bool) (pdf : PDFFile) : Nat :=
  keywordCount mapKeywords (lowerList pdf.text.data)
    + (if mapNameTokens.any (fun t => containsSub t.data (lowerList pdf.name.data)) then 2 else 0)
    + (if pdf.isMapLike then 3 else 0)
    + (if tess then
        keywordCount mapKeywords (lowerList (joinSep [' '] (pdf.ocrTexts.map String.data)))
      else 0)
    + (if !(wordCount pdf.text > 300) && wordCount pdf.text < 100 && pdf.isMapLike then 2 else 0)

/-- The combined document score of `analyze_pdf_type`. -/
def docScore (tess : Bool) (pdf : PDFFile) : Nat :=
  keywordCount documentKeywords (lowerList pdf.text.data)
    + (if docNameTokens.any (fun t => containsSub t.data (lowerList pdf.name.data)) then 2 else 0)
    + (if tess then
        keywordCount documentKeywords (lowerList (joinSep [' '] (pdf.ocrTexts.map String.data)))
      else 0)
    + (if wordCount pdf.text > 300 then 2 else 0)

/-- `PDFPair` from `pdf_scanner.py`. -/
structure PDFPair where
  document_pdf : Option PDFFile
  map_pdf : Option PDFFile
  additional_pdfs : List PDFFile
deriving DecidableEq, Repr

/-- The first categorisation loop of `get_pdf_files`. -/
def categorize (tess : Bool) :
    List PDFFile → Option PDFFile → Option PDFFile → List PDFFile →
    Option PDFFile × Option PDFFile × List PDFFile
  | [], m, d, adds => (m, d, adds)
  | p :: ps, m, d, adds =>
    let ty := analyze_pdf_type tess p
    if ty = PDFType.map && m.isNone then categorize tess ps (some p) d adds
    else if ty = PDFType.document && d.isNone then categorize tess ps m (some p) adds
    else categorize tess ps m d (adds ++ [p])

/-- The fallback loops of `get_pdf_files`: pull the first list element
satisfying the predicate out of the list. -/
def promoteFirst (pred : PDFFile → Bool) : List PDFFile → Option PDFFile × List PDFFile
  | [] => (none, [])
  | p :: ps =>
    if pred p then (some p, ps)
    else
      let (r, rest) := promoteFirst pred ps
      (r, p :: rest)

/-- Filename-pattern predicate of the map fallback loop. -/
def mapNamePred (p : PDFFile) : Bool :=
  mapNameTokens.any (fun t => containsSub t.data (lowerList p.name.data))

/-- Filename-pattern predicate of the document fallback loop (note: no
`wayleave` token here, unlike the keyword bump in `analyze_pdf_type`). -/
def docNamePred (p : PDFFile) : Bool :=
  ["consent", "agreement", "contract"].any (fun t => containsSub t.data (lowerList p.name.data))

/-- `get_pdf_files` from `pdf_scanner.py`, over the (sorted) list of PDF
files found in one folder. -/
def get_pdf_files (tess : Bool) (pdfs : List PDFFile) : PDFPair :=
  if pdfs.isEmpty then ⟨none, none, []⟩
  else
    let (m, d, adds) := categorize tess pdfs none none []
    if adds.isEmpty then ⟨d, m, adds⟩
    else
      let (pm, adds1) := if m.isNone then promoteFirst mapNamePred adds else (none, adds)
      let m1 := if m.isSome then m else pm
      let (pd, adds2) := if d.isNone then promoteFirst docNamePred adds1 else (none, adds1)
      let d1 := if d.isSome then d else pd
      ⟨d1, m1, adds2⟩

/-! ### Directory scanning (`PDFScanner.scan_directory`)

The file system is modelled as a tree of folders; each folder carries its
(sorted) immediate PDF children, its `.processed` marker state, and its
named subdirectories.  `scan_directory` is modelled as a function from the
tree to the result list plus the post-scan tree (the only mutation is
`mark_folder_as_processed`, i.e. setting the marker flag). -/

/-- A folder: its name, its PDF children (as delivered by the glob, in
sorted order), whether the `.processed` marker file exists, and its
subdirectories. -/
inductive FSTree where
  | node (name : String) (pdfs : List PDFFile) (marker : Bool) (subdirs : List FSTree)

/-- Folder name accessor. -/
def FSTree.getName : FSTree → String
  | .node n _ _ _ => n

/-- Folder PDF-list accessor. -/
def FSTree.getPdfs : FSTree → List PDFFile
  | .node _ p _ _ => p

/-- Marker accessor. -/
def FSTree.getMarker : FSTree → Bool
  | .node _ _ m _ => m

/-- A scan result entry: relative path (list of folder names from the scan
root; `[]` is the root itself) and the folder's `PDFPair`. -/
abbrev ScanEntry := List String × PDFPair

/-- The inclusion test of `scan_directory`:
`pdf_pair.document_pdf or pdf_pair.map_pdf or pdf_pair.additional_pdfs`. -/
def pairHasPdfs (p : PDFPair) : Bool :=
  p.document_pdf.isSome || p.map_pdf.isSome || !p.additional_pdfs.isEmpty

mutual
/-- `PDFScanner.scan_directory`: returns the result list and the tree
after the marker side effects. -/
def scanDir (tess : Bool) : FSTree → List ScanEntry × FSTree
  | .node name pdfs marker subdirs =>
    let pair := get_pdf_files tess pdfs
    let included := pairHasPdfs pair || marker
    let here : List ScanEntry := if included then [([], pair)] else []
    let marker1 := if included then true else marker
    let (subEntries, subdirs1) := scanSubs tess subdirs
    (here ++ subEntries, .node name pdfs marker1 subdirs1)

/-- Scan a list of subdirectories, prefixing each child's entries with its
name. -/
def scanSubs (tess : Bool) : List FSTree → List ScanEntry × List FSTree
  | [] => ([], [])
  | t :: ts =>
    let (es, t1) := scanDir tess t
    let (rest, ts1) := scanSubs tess ts
    (es.map (fun e => (t.getName :: e.1, e.2)) ++ rest, t1 :: ts1)
end

end Wayleave

namespace Wayleave

/-! Sanity checks (concrete evaluations of the utilities). -/

example : stripPy "  ab c  ".data = "ab c".data := by decide
example : collapseWs "a  b\n\tc".data = "a b c".data := by decide
example : containsSubstr "hello world" "lo w" = true := by decide
example : containsSubstr "hello" "hole" = false := by decide
example : replacePy " AND ".data ",".data "A AND B AND C".data = "A,B,C".data := by decide
example : splitOnCharPy ',' "a,,b".data = ["a".data, [], "b".data] := by decide
example : splitWsPy "  a bc  d ".data = ["a".data, "bc".data, "d".data] := by decide
example : joinSep ", ".data ["a".data, "b".data, "c".data] = "a, b, c".data := by decide
example : upperList "gu18 5uh".data = "GU18 5UH".data := by decide

example : validate_postcode "GU18 5UH" = true := by decide
example : validate_postcode " gu18 5uh " = true := by decide
example : validate_postcode "S1 2AB" = true := by decide
example : validate_postcode "A12BC" = true := by decide
example : validate_postcode "GU18 5U" = false := by decide
example : validate_postcode "1GU18 5UH" = false := by decide
example : validate_postcode "" = false := by decide
example : findPc "52 Ambleside Road, Lightwater, Surrey GU18 5UH".data
    = some ("52 Ambleside Road, Lightwater, Surrey ".data, "GU18 5UH".data) := by decide

set_option maxRecDepth 8000 in
example :
    extract_names_and_address_annual
      "Re: Electrical Equipment\nI/We, JOHN SMITH AND JANE DOE\nof 52 Ambleside Road, Lightwater, Surrey GU18 5UH being the grantor"
    = .ok ⟨"JOHN SMITH AND JANE DOE", "John and Jane",
        ⟨["52 Ambleside Road", "Lightwater", "Surrey"], "GU18 5UH"⟩⟩ := by decide

example :
    extract_names_and_address_annual ""
    = .error (.content "Error processing annual document: Document content is empty or invalid") := by
  decide

set_option maxRecDepth 8000 in
example :
    extract_names_and_address_fifteen_year
      "This Agreement (1) ALICE BROWN of 10 High Street, Newtown, Kent ME14 1XX (2) the company"
    = .ok ⟨"ALICE BROWN", "Alice",
        ⟨["10 High Street", "Newtown", "Kent"], "ME14 1XX"⟩⟩ := by decide

example :
    extract_names_and_address_fifteen_year ""
    = .error (.content "Could not find names and address in 15-year document") := by decide

example : find15 "(1)   of X, tail".data = some ([], "X".data, ", tail".data) := by decide
example : findOf "xx of somewhere else\n".data = some "somewhere else".data := by decide
example : findIWe "I/We, JOHN\nmore".data = some "JOHN".data := by decide

example : format_names "JOHN SMITH AND JANE DOE"
    = .ok ("John Smith & Jane Doe", "John and Jane") := by decide
example : format_names "A AND B AND C" = .ok ("A & B & C", "A, B and C") := by decide
example : format_names "MARY-JANE O'BRIEN" = .ok ("Mary-Jane O'brien", "Mary-Jane") := by decide

example : generate_filename ⟨["52 Ambleside Road", "Lightwater", "Surrey"], "GU18 5UH"⟩
    = "52 Ambleside Road, Lightwater, Surrey, GU18 5UH.pdf" := by decide
example : generate_filename ⟨["52 Ambleside Road"], "GU18 5UH"⟩
    = generate_filename ⟨["52 Ambleside Road"], "GU18  5UH"⟩ := by decide

example : identify_wayleave_type "the Term lasts 15 years with the Wayleave Payment at £ per annum"
    = "annual" := by decide
example : identify_wayleave_type "the Term lasts 15 years with the Wayleave Payment"
    = "15-year" := by decide
example : identify_wayleave_type "nothing relevant" = "unknown" := by decide

example : analyze_pdf_type false ⟨"plan.pdf", "", false, []⟩ = PDFType.unknown := by decide
example : analyze_pdf_type false ⟨"x.pdf", "wayleave consent agreement signed", false, []⟩
    = PDFType.document := by decide
example : analyze_pdf_type false ⟨"lv. layout.pdf", "map with scale", true, []⟩
    = PDFType.map := by decide

example :
    get_pdf_files false [⟨"plan.pdf", "", false, []⟩]
    = ⟨none, some ⟨"plan.pdf", "", false, []⟩, []⟩ := by decide
example :
    get_pdf_files false [⟨"Print.pdf", "", false, []⟩]
    = ⟨none, none, [⟨"Print.pdf", "", false, []⟩]⟩ := by decide

/-! ### Lemmas about folder categorisation -/

/-- All PDFs referenced by a `PDFPair`, in slot order. -/
def pairList (r : PDFPair) : List PDFFile :=
  r.document_pdf.toList ++ r.map_pdf.toList ++ r.additional_pdfs

/-- Classification-as-MAP test used by the folder pass. -/
def isMapB (tess : Bool) (p : PDFFile) : Bool :=
  decide (analyze_pdf_type tess p = PDFType.map)

/-- Classification-as-DOCUMENT test used by the folder pass. -/
def isDocB (tess : Bool) (p : PDFFile) : Bool :=
  decide (analyze_pdf_type tess p = PDFType.document)

/-- Specification of `get_pdf_files` in the amended claim's words: the map
slot gets the first PDF classified MAP, the document slot the first
classified DOCUMENT, everything else stays in `additionalPdfs` in order;
then an empty map (resp. document) slot is filled by the first remaining
additional PDF whose lowercase filename contains one of
`lv.`/`layout`/`map`/`plan` (resp. `consent`/`agreement`/`contract`),
which is removed from `additionalPdfs`. -/
def greedySpec (tess : Bool) (pdfs : List PDFFile) : PDFPair :=
  let m0 := pdfs.find? (isMapB tess)
  let d0 := pdfs.find? (isDocB tess)
  let rest := (pdfs.eraseP (isMapB tess)).eraseP (isDocB tess)
  if rest.isEmpty then ⟨d0, m0, rest⟩
  else
    let pm := if m0.isNone then rest.find? mapNamePred else none
    let rest1 := if m0.isNone then rest.eraseP mapNamePred else rest
    let m1 := if m0.isSome then m0 else pm
    let pd := if d0.isNone then rest1.find? docNamePred else none
    let rest2 := if d0.isNone then rest1.eraseP docNamePred else rest1
    let d1 := if d0.isSome then d0 else pd
    ⟨d1, m1, rest2⟩

/-- `promoteFirst` is exactly "find the first match and remove it". -/
theorem promoteFirst_eq (pred : PDFFile → Bool) (l : List PDFFile) :
    promoteFirst pred l = (l.find? pred, l.eraseP pred) := by
  induction l with
  | nil => rfl
  | cons p ps ih =>
    by_cases h : pred p <;> simp [promoteFirst, List.find?, List.eraseP, h, ih]

/-- Characterisation of the first categorisation loop: the map slot is
filled (if empty) by the first MAP-classified PDF, the document slot by
the first DOCUMENT-classified one, and the other PDFs are appended to the
accumulator in order. -/
theorem categorize_eq (tess : Bool) (ps : List PDFFile) :
    ∀ (m d : Option PDFFile) (adds : List PDFFile),
      categorize tess ps m d adds =
        ((if m.isSome then m else ps.find? (isMapB tess)),
         (if d.isSome then d else ps.find? (isDocB tess)),
         adds ++
           (let ps1 := if m.isSome then ps else ps.eraseP (isMapB tess)
            if d.isSome then ps1 else ps1.eraseP (isDocB tess))) := by
  induction ps with
  | nil => intro m d adds; cases m <;> cases d <;> simp [categorize]
  | cons p ps ih =>
    intro m d adds
    cases hty : analyze_pdf_type tess p <;> cases m <;> cases d <;>
      simp [categorize, hty, ih, isMapB, isDocB, List.find?_cons, List.eraseP_cons,
        List.append_assoc]

/-- Removing the first match and re-prepending the found element is a
permutation (and when nothing is found, `eraseP` is the identity). -/
theorem find?_eraseP_perm (f : PDFFile → Bool) (l : List PDFFile) :
    ((l.find? f).toList ++ l.eraseP f).Perm l := by
  induction l with
  | nil => simp
  | cons p ps ih =>
    by_cases h : f p
    · simp [List.find?_cons, List.eraseP_cons, h]
    · simp only [List.find?_cons, List.eraseP_cons, h, if_neg, cond_false]
      exact List.Perm.trans List.perm_middle (ih.cons p)

/-- The MAP and DOCUMENT classifications are mutually exclusive. -/
theorem isMapB_isDocB_exclusive (tess : Bool) (p : PDFFile) :
    isMapB tess p = true → isDocB tess p = false := by
  simp only [isMapB, isDocB, decide_eq_true_eq, decide_eq_false_iff_not]
  intro h1 h2
  rw [h1] at h2
  exact PDFType.noConfusion h2

/-- Removing the first MAP-classified PDF does not change which PDF is the
first DOCUMENT-classified one. -/
theorem find?_doc_eraseP_map (tess : Bool) (l : List PDFFile) :
    (l.eraseP (isMapB tess)).find? (isDocB tess) = l.find? (isDocB tess) := by
  induction l with
  | nil => rfl
  | cons p ps ih =>
    by_cases h : isMapB tess p
    · have hd : isDocB tess p = false := isMapB_isDocB_exclusive tess p h
      simp [List.eraseP_cons, List.find?_cons, h, hd]
    · by_cases hd : isDocB tess p <;>
        simp [List.eraseP_cons, List.find?_cons, h, hd, ih]

/-- `get_pdf_files` equals its find?/eraseP specification `greedySpec`. -/
theorem get_pdf_files_eq_greedySpec (tess : Bool) (pdfs : List PDFFile) :
    get_pdf_files tess pdfs = greedySpec tess pdfs := by
  cases pdfs with
  | nil => rfl
  | cons p ps =>
    unfold get_pdf_files greedySpec
    rw [categorize_eq]
    rcases hm0 : (p :: ps).find? (isMapB tess) with _ | xm <;>
      rcases hd0 : (p :: ps).find? (isDocB tess) with _ | xd <;>
        simp [hm0, hd0, promoteFirst_eq]

/-- Swapping the first two chunks of a three-chunk append is a
permutation. -/
theorem append_swap_perm (a b c : List PDFFile) : (a ++ (b ++ c)).Perm (b ++ (a ++ c)) := by
  rw [← List.append_assoc, ← List.append_assoc]
  exact List.perm_append_comm.append_right c

/-- One promotion stage (fill the slot from the list if empty) preserves
the multiset of PDFs. -/
theorem promoted_perm (o : Option PDFFile) (pred : PDFFile → Bool) (l : List PDFFile) :
    (((if o.isSome then o else l.find? pred).toList
      ++ (if o.isNone then l.eraseP pred else l))).Perm (o.toList ++ l) := by
  cases o with
  | some x => simp
  | none => simpa using find?_eraseP_perm pred l

/-- The folder pass neither drops nor duplicates PDFs: the three slots of
the resulting pair are a permutation of the folder's PDF list. -/
theorem pairList_get_perm (tess : Bool) (pdfs : List PDFFile) :
    (pairList (get_pdf_files tess pdfs)).Perm pdfs := by
  rw [get_pdf_files_eq_greedySpec]
  have hL1 : (((pdfs.find? (isMapB tess)).toList ++ pdfs.eraseP (isMapB tess))).Perm pdfs :=
    find?_eraseP_perm _ _
  have hL2 : (((pdfs.find? (isDocB tess)).toList
      ++ (pdfs.eraseP (isMapB tess)).eraseP (isDocB tess))).Perm (pdfs.eraseP (isMapB tess)) := by
    rw [← find?_doc_eraseP_map]
    exact find?_eraseP_perm _ _
  have hQ := fun l => find?_eraseP_perm mapNamePred l
  have hR := fun l => find?_eraseP_perm docNamePred l
  rcases hm0 : pdfs.find? (isMapB tess) with _ | xm <;>
    rcases hd0 : pdfs.find? (isDocB tess) with _ | xd <;>
      simp only [hm0, hd0, Option.toList_some, Option.toList_none, List.nil_append,
        List.singleton_append] at hL1 hL2 <;>
      by_cases hempty :
        ((pdfs.eraseP (isMapB tess)).eraseP (isDocB tess)).isEmpty <;>
      simp [greedySpec, pairList, hm0, hd0, hempty]
  · -- no map, no doc, rest empty
    exact hL2.trans hL1
  · -- no map, no doc, promotions on both sides
    refine List.Perm.trans (append_swap_perm _ _ _) ?_
    refine List.Perm.trans (((hR _).append_left _)) ?_
    exact ((hQ _).trans hL2).trans hL1
  · -- no map, doc found, rest empty
    exact (hL2.trans hL1)
  · -- no map, doc found: only map promotion
    refine List.Perm.trans (List.Perm.cons xd ((hQ _))) ?_
    exact hL2.trans hL1
  · -- map found, no doc, rest empty
    exact List.Perm.trans (List.Perm.cons xm hL2) hL1
  · -- map found, no doc: only doc promotion
    refine List.Perm.trans List.perm_middle ?_
    refine List.Perm.trans (List.Perm.cons xm ((hR _).trans hL2)) ?_
    exact hL1
  · -- map and doc found, rest empty
    refine List.Perm.trans (List.Perm.swap xm xd _) ?_
    exact (List.Perm.cons xm hL2).trans hL1
  · -- map and doc found: no promotion
    refine List.Perm.trans (List.Perm.swap xm xd _) ?_
    exact (List.Perm.cons xm hL2).trans hL1

/-- The pair is nonempty exactly when the folder has PDFs. -/
theorem pairHasPdfs_eq_false_iff (r : PDFPair) : pairHasPdfs r = false ↔ pairList r = [] := by
  rcases r with ⟨d, m, a⟩
  cases d <;> cases m <;> simp [pairHasPdfs, pairList]

/-- `get_pdf_files` yields a nonempty pair iff the folder has PDFs. -/
theorem pairHasPdfs_get (tess : Bool) (pdfs : List PDFFile) :
    pairHasPdfs (get_pdf_files tess pdfs) = !pdfs.isEmpty := by
  cases pdfs with
  | nil => rfl
  | cons p ps =>
    simp only [List.isEmpty_cons, Bool.not_false]
    have hperm := pairList_get_perm tess (p :: ps)
    cases hb : pairHasPdfs (get_pdf_files tess (p :: ps))
    · exfalso
      have h0 : pairList (get_pdf_files tess (p :: ps)) = [] :=
        (pairHasPdfs_eq_false_iff _).mp hb
      rw [h0] at hperm
      have := hperm.length_eq
      simp at this
    · rfl

/-! ### Lemmas about the directory scan -/

/-- Scanning preserves a folder's name. -/
theorem scanDir_getName (tess : Bool) (t : FSTree) :
    (scanDir tess t).2.getName = t.getName := by
  cases t with
  | node n p m subs =>
    rcases hs : scanSubs tess subs with ⟨es, ts1⟩
    simp [scanDir, hs, FSTree.getName]

mutual
/-- Scanning is idempotent at the level of one folder: re-scanning the
post-scan tree reproduces the same entries and changes no marker. -/
theorem scanDir_idem (tess : Bool) : ∀ t, scanDir tess (scanDir tess t).2 = scanDir tess t
  | .node name pdfs marker subdirs => by
    have hsub := scanSubs_idem tess subdirs
    rcases hs : scanSubs tess subdirs with ⟨es, ts1⟩
    rw [hs] at hsub
    by_cases hinc : (pairHasPdfs (get_pdf_files tess pdfs) || marker) = true
    · simp [scanDir, hs, hsub, hinc]
    · simp only [Bool.or_eq_true, not_or, Bool.not_eq_true] at hinc
      simp [scanDir, hs, hsub, hinc.1, hinc.2]

/-- List version of `scanDir_idem`. -/
theorem scanSubs_idem (tess : Bool) :
    ∀ ts, scanSubs tess (scanSubs tess ts).2 = scanSubs tess ts
  | [] => by simp [scanSubs]
  | t :: ts => by
    have h1 := scanDir_idem tess t
    have h2 := scanSubs_idem tess ts
    rcases hd : scanDir tess t with ⟨e1, t1⟩
    rcases hr : scanSubs tess ts with ⟨rest, ts1⟩
    rw [hd] at h1
    rw [hr] at h2
    have hname : t1.getName = t.getName := by
      have := scanDir_getName tess t
      rw [hd] at this
      exact this
    simp [scanSubs, hd, hr, h1, h2, hname]
end

/-- Every entry produced for a subdirectory has a nonempty relative path
(it starts with the subdirectory's name). -/
theorem scanSubs_paths_ne_nil (tess : Bool) :
    ∀ ts, ∀ e ∈ (scanSubs tess ts).1, e.1 ≠ [] := by
  intro ts
  induction ts with
  | nil => simp [scanSubs]
  | cons t ts ih =>
    rcases hd : scanDir tess t with ⟨e1, t1⟩
    rcases hr : scanSubs tess ts with ⟨rest, ts1⟩
    rw [hr] at ih
    simp only [scanSubs, hd, hr, List.mem_append, List.mem_map]
    rintro e (⟨e0, _, rfl⟩ | he)
    · simp
    · exact ih e he

/-- A folder appears in its own scan result (path `[]`) exactly when it
has PDF children or already carries the processed marker. -/
theorem scanDir_root_included (tess : Bool) (t : FSTree) :
    (scanDir tess t).1.any (fun e => e.1.isEmpty)
      = (!t.getPdfs.isEmpty || t.getMarker) := by
  cases t with
  | node n p m subs =>
    rcases hs : scanSubs tess subs with ⟨es, ts1⟩
    have hne : ∀ e ∈ es, e.1 ≠ [] := by
      have := scanSubs_paths_ne_nil tess subs
      rw [hs] at this
      exact this
    have hsub : es.any (fun e => e.1.isEmpty) = false := by
      rw [List.any_eq_false]
      intro e he
      simp [List.isEmpty_eq_true, hne e he]
    by_cases hinc : (pairHasPdfs (get_pdf_files tess p) || m) = true
    · simp [scanDir, hs, hinc, hsub, FSTree.getPdfs, FSTree.getMarker]
      have := pairHasPdfs_get tess p
      rw [this] at hinc
      simpa using hinc.symm
    · simp only [Bool.or_eq_true, not_or, Bool.not_eq_true] at hinc
      simp [scanDir, hs, hinc.1, hinc.2, hsub, FSTree.getPdfs, FSTree.getMarker]
      have := pairHasPdfs_get tess p
      rw [hinc.1] at this
      simpa using this.symm

/-! ### Character-class lemmas for the postcode proofs -/

/-- A successful association-list lookup yields a member pair. -/
theorem lookup_mem {l : List (Char × Char)} {a b : Char} (h : l.lookup a = some b) :
    (a, b) ∈ l := by
  induction l with
  | nil => simp [List.lookup] at h
  | cons p ps ih =>
    rcases p with ⟨k, v⟩
    rw [List.lookup] at h
    by_cases hk : a = k
    · subst hk
      simp at h
      simp [h]
    · have : (a == k) = false := by simp [hk]
      rw [this] at h
      simp only [List.mem_cons]
      exact Or.inr (ih h)

/-- `toUpperPy` fixes whitespace characters. -/
theorem toUpperPy_space {c : Char} (h : isSpaceC c = true) : toUpperPy c = c := by
  unfold toUpperPy
  cases hl : upperPairs.lookup c with
  | none => rfl
  | some d =>
    exfalso
    have hmem := lookup_mem hl
    have : ∀ p ∈ upperPairs, isSpaceC p.1 = false := by decide
    have := this _ hmem
    simp_all

/-- `toUpperPy` fixes digits. -/
theorem toUpperPy_digit {c : Char} (h : isDigitC c = true) : toUpperPy c = c := by
  unfold toUpperPy
  cases hl : upperPairs.lookup c with
  | none => rfl
  | some d =>
    exfalso
    have hmem := lookup_mem hl
    have : ∀ p ∈ upperPairs, isDigitC p.1 = false := by decide
    have := this _ hmem
    simp_all

/-- `toUpperPy` maps any (case-insensitive) letter to an uppercase one. -/
theorem toUpperPy_alpha {c : Char} (h : isAlphaCI c = true) :
    isUpperAlpha (toUpperPy c) = true := by
  unfold toUpperPy
  cases hl : upperPairs.lookup c with
  | some d =>
    have hmem := lookup_mem hl
    have : ∀ p ∈ upperPairs, isUpperAlpha p.2 = true := by decide
    exact this _ hmem
  | none =>
    unfold isAlphaCI at h
    rw [hl] at h
    simpa using h

/-- `toUpperPy` maps any (case-insensitive) alphanumeric to an uppercase
alphanumeric. -/
theorem toUpperPy_alnum {c : Char} (h : isAlnumCI c = true) :
    isAlnumU (toUpperPy c) = true := by
  unfold isAlnumCI at h
  rcases Bool.or_eq_true_iff.mp h with h1 | h1
  · unfold isAlnumU
    rw [toUpperPy_alpha h1]
    rfl
  · unfold isAlnumU
    rw [toUpperPy_digit h1, h1]
    simp

/-- `toUpperPy` preserves the whitespace class. -/
theorem isSpaceC_toUpperPy (c : Char) : isSpaceC (toUpperPy c) = isSpaceC c := by
  unfold toUpperPy
  cases hl : upperPairs.lookup c with
  | none => rfl
  | some d =>
    have hmem := lookup_mem hl
    have h1 : ∀ p ∈ upperPairs, isSpaceC p.1 = false ∧ isSpaceC p.2 = false := by decide
    have := h1 _ hmem
    simp [this.1, this.2]

/-- Digits are not whitespace. -/
theorem isDigitC_not_space {c : Char} (h : isDigitC c = true) : isSpaceC c = false := by
  cases hs : isSpaceC c
  · rfl
  · exfalso
    simp only [isSpaceC, Bool.or_eq_true, decide_eq_true_eq] at hs
    rcases hs with ((((h1 | h1) | h1) | h1) | h1) | h1 <;> subst h1 <;> simp [isDigitC] at h

/-- Uppercase letters are not whitespace. -/
theorem isUpperAlpha_not_space {c : Char} (h : isUpperAlpha c = true) : isSpaceC c = false := by
  cases hs : isSpaceC c
  · rfl
  · exfalso
    simp only [isSpaceC, Bool.or_eq_true, decide_eq_true_eq] at hs
    rcases hs with ((((h1 | h1) | h1) | h1) | h1) | h1 <;> subst h1 <;> simp [isUpperAlpha] at h

/-- Digits are not uppercase letters. -/
theorem isDigitC_not_upper {c : Char} (h : isDigitC c = true) : isUpperAlpha c = false := by
  cases hu : isUpperAlpha c
  · rfl
  · exfalso
    simp only [isDigitC, Bool.and_eq_true, decide_eq_true_eq] at h
    simp only [isUpperAlpha, Bool.and_eq_true, decide_eq_true_eq] at hu
    have : ('A' : Char) ≤ '9' := le_trans hu.1 h.2
    simp at this

/-- Uppercase alphanumerics are not whitespace. -/
theorem isAlnumU_not_space {c : Char} (h : isAlnumU c = true) : isSpaceC c = false := by
  rcases Bool.or_eq_true_iff.mp h with h1 | h1
  · exact isUpperAlpha_not_space h1
  · exact isDigitC_not_space h1

/-- `toLowerPy` only produces `'.'` from `'.'` itself. -/
theorem toLowerPy_eq_dot {c : Char} (h : toLowerPy c = '.') : c = '.' := by
  unfold toLowerPy at h
  cases hl : lowerPairs.lookup c with
  | none => rw [hl] at h; exact h
  | some d =>
    exfalso
    rw [hl] at h
    subst h
    have hmem := lookup_mem hl
    have : ∀ p ∈ lowerPairs, p.2 ≠ '.' := by decide
    exact this _ hmem rfl

/-! ### Structure of postcode matches -/

/-- Dropping as many elements as `takeWhile` keeps is `dropWhile`. -/
theorem drop_takeWhile_length (p : Char → Bool) (l : List Char) :
    l.drop (l.takeWhile p).length = l.dropWhile p := by
  induction l with
  | nil => rfl
  | cons c cs ih =>
    by_cases h : p c <;> simp [List.takeWhile_cons, List.dropWhile_cons, h, ih]

/-- `takeWhile` over an all-satisfying prefix followed by a failing head. -/
theorem takeWhile_all_cons (p : Char → Bool) (xs : List Char) (y : Char) (zs : List Char)
    (hxs : ∀ x ∈ xs, p x = true) (hy : p y = false) :
    (xs ++ y :: zs).takeWhile p = xs := by
  induction xs with
  | nil => simp [List.takeWhile_cons, hy]
  | cons x xs ih =>
    have hx : p x = true := hxs x (by simp)
    simp only [List.cons_append, List.takeWhile_cons, hx, if_true]
    rw [ih (fun a ha => hxs a (by simp [ha]))]

/-- Shape of a successful `matchWsD2`: whitespace run, digit, two letters. -/
theorem matchWsD2_struct {alpha : Char → Bool} {l w r : List Char}
    (h : matchWsD2 alpha l = some (w, r)) :
    ∃ ws d x y, l = ws ++ d :: x :: y :: r ∧ w = ws ++ [d, x, y]
      ∧ (∀ c ∈ ws, isSpaceC c = true)
      ∧ isDigitC d = true ∧ alpha x = true ∧ alpha y = true := by
  simp only [matchWsD2] at h
  rw [drop_takeWhile_length] at h
  split at h
  next d x y rest heq =>
    split at h
    next hc =>
      injection h with h1
      rw [Prod.mk.injEq] at h1
      obtain ⟨hw, hr⟩ := h1
      simp only [Bool.and_eq_true] at hc
      refine ⟨l.takeWhile isSpaceC, d, x, y, ?_, hw.symm, ?_, hc.1.1, hc.1.2, hc.2⟩
      · rw [← hr]
        conv_lhs => rw [← List.takeWhile_append_dropWhile (p := isSpaceC) (l := l)]
        rw [heq]
      · intro c hcmem
        exact List.mem_takeWhile_imp hcmem
    next => exact absurd h (by simp)
  next => exact absurd h (by simp)

/-- Upper-casing fixes an all-whitespace list. -/
theorem upperList_ws {ws : List Char} (hws : ∀ c ∈ ws, isSpaceC c = true) :
    List.map toUpperPy ws = ws := by
  have h2 : List.map toUpperPy ws = List.map id ws :=
    List.map_congr_left (fun a ha => toUpperPy_space (hws a ha))
  simpa using h2

/-- Transfer of `matchWsD2` to the upper-cased match: feeding the matched
text alone into the uppercase matcher consumes it entirely. -/
theorem matchWsD2_transfer {l w r : List Char}
    (h : matchWsD2 isAlphaCI l = some (w, r)) :
    matchWsD2 isUpperAlpha (upperList w) = some (upperList w, []) := by
  obtain ⟨ws, d, x, y, _, hw, hws, hd, hx, hy⟩ := matchWsD2_struct h
  subst hw
  have hupper : upperList (ws ++ [d, x, y]) = ws ++ [d, toUpperPy x, toUpperPy y] := by
    unfold upperList
    rw [List.map_append, upperList_ws hws]
    simp [toUpperPy_digit hd]
  rw [hupper]
  have htw : (ws ++ d :: toUpperPy x :: toUpperPy y :: []).takeWhile isSpaceC = ws :=
    takeWhile_all_cons _ _ _ _ hws (isDigitC_not_space hd)
  simp only [matchWsD2]
  rw [htw, List.drop_left]
  simp [hd, toUpperPy_alpha hx, toUpperPy_alpha hy, hupper]

/-- Whitespace is not alphanumeric. -/
theorem isSpaceC_not_alnumU {c : Char} (h : isSpaceC c = true) : isAlnumU c = false := by
  cases ha : isAlnumU c
  · rfl
  · rw [isAlnumU_not_space ha] at h
    exact absurd h (by simp)

/-- The optional-slot branch of the uppercase matcher fails on the text
matched by a plain `matchWsD2` (its head is either whitespace or a digit
directly followed by the two final letters). -/
theorem matchOptD2_direct_transfer {l w r : List Char}
    (h : matchWsD2 isAlphaCI l = some (w, r)) :
    matchOptD2 isUpperAlpha isAlnumU (upperList w) = some (upperList w, []) := by
  obtain ⟨ws, d, x, y, hl, hw, hws, hd, hx, hy⟩ := matchWsD2_struct h
  have htr := matchWsD2_transfer h
  subst hw
  have hupper : upperList (ws ++ [d, x, y]) = ws ++ [d, toUpperPy x, toUpperPy y] := by
    unfold upperList
    rw [List.map_append, upperList_ws hws]
    simp [toUpperPy_digit hd]
  simp only [matchOptD2]
  have hopt : (match upperList (ws ++ [d, x, y]) with
      | c :: rest =>
        if isAlnumU c then
          (matchWsD2 isUpperAlpha rest).map (fun p => (c :: p.1, p.2)) else none
      | [] => none) = none := by
    rw [hupper]
    cases ws with
    | nil =>
      have hne : matchWsD2 isUpperAlpha [toUpperPy x, toUpperPy y] = none := by
        simp only [matchWsD2]
        have ht0 : List.takeWhile isSpaceC [toUpperPy x, toUpperPy y] = [] := by
          simp [List.takeWhile_cons, isUpperAlpha_not_space (toUpperPy_alpha hx)]
        rw [ht0]
        simp
      simp only [List.nil_append]
      rw [if_pos (by simp [isAlnumU, hd]), hne]
      rfl
    | cons a as =>
      have ha : isSpaceC a = true := hws a (by simp)
      simp only [List.cons_append]
      rw [if_neg (by simp [isSpaceC_not_alnumU ha])]
  rw [hopt, Option.none_orElse]
  exact htr

/-- Transfer of `matchOptD2` to the uppercase matcher. -/
theorem matchOptD2_transfer {l w r : List Char}
    (h : matchOptD2 isAlphaCI isAlnumCI l = some (w, r)) :
    matchOptD2 isUpperAlpha isAlnumU (upperList w) = some (upperList w, []) := by
  simp only [matchOptD2] at h
  cases l with
  | nil =>
    rw [Option.none_orElse] at h
    exact matchOptD2_direct_transfer h
  | cons c rest =>
    replace h : ((if isAlnumCI c = true then
        Option.map (fun p => (c :: p.1, p.2)) (matchWsD2 isAlphaCI rest) else none)
        <|> matchWsD2 isAlphaCI (c :: rest)) = some (w, r) := h
    by_cases hc : isAlnumCI c = true
    · rw [if_pos hc] at h
      cases hinner : matchWsD2 isAlphaCI rest with
      | none =>
        rw [hinner] at h
        rw [Option.map_none', Option.none_orElse] at h
        exact matchOptD2_direct_transfer h
      | some p =>
        rcases p with ⟨w0, r0⟩
        rw [hinner] at h
        simp only [Option.map_some', Option.some_orElse] at h
        injection h with h1
        rw [Prod.mk.injEq] at h1
        obtain ⟨hw, hr⟩ := h1
        subst hw
        have htr := matchWsD2_transfer hinner
        have hCalnum : isAlnumU (toUpperPy c) = true := toUpperPy_alnum hc
        simp only [upperList] at htr
        show ((if isAlnumU (toUpperPy c) = true then
            Option.map (fun p => (toUpperPy c :: p.1, p.2))
              (matchWsD2 isUpperAlpha (List.map toUpperPy w0)) else none)
          <|> matchWsD2 isUpperAlpha (toUpperPy c :: List.map toUpperPy w0))
          = some (toUpperPy c :: List.map toUpperPy w0, [])
        rw [if_pos hCalnum, htr]
        rfl
    · rw [if_neg hc, Option.none_orElse] at h
      exact matchOptD2_direct_transfer h

/-- Shape of a successful `matchOptD2`: an optional alphanumeric, then a
whitespace run, a digit and two letters. -/
theorem matchOptD2_struct {alpha alnum : Char → Bool} {l w r : List Char}
    (h : matchOptD2 alpha alnum l = some (w, r)) :
    ∃ opt ws d x y, w = opt ++ (ws ++ [d, x, y])
      ∧ (opt = [] ∨ ∃ c, opt = [c] ∧ alnum c = true)
      ∧ (∀ c ∈ ws, isSpaceC c = true)
      ∧ isDigitC d = true ∧ alpha x = true ∧ alpha y = true := by
  simp only [matchOptD2] at h
  cases l with
  | nil =>
    rw [Option.none_orElse] at h
    obtain ⟨ws, d, x, y, _, hw, hws, hd, hx, hy⟩ := matchWsD2_struct h
    exact ⟨[], ws, d, x, y, by simpa using hw, Or.inl rfl, hws, hd, hx, hy⟩
  | cons c rest =>
    replace h : ((if alnum c = true then
        Option.map (fun p => (c :: p.1, p.2)) (matchWsD2 alpha rest) else none)
        <|> matchWsD2 alpha (c :: rest)) = some (w, r) := h
    by_cases hc : alnum c = true
    · rw [if_pos hc] at h
      cases hinner : matchWsD2 alpha rest with
      | none =>
        rw [hinner, Option.map_none', Option.none_orElse] at h
        obtain ⟨ws, d, x, y, _, hw, hws, hd, hx, hy⟩ := matchWsD2_struct h
        exact ⟨[], ws, d, x, y, by simpa using hw, Or.inl rfl, hws, hd, hx, hy⟩
      | some p =>
        rcases p with ⟨w0, r0⟩
        rw [hinner] at h
        simp only [Option.map_some', Option.some_orElse] at h
        injection h with h1
        rw [Prod.mk.injEq] at h1
        obtain ⟨hw, hr⟩ := h1
        obtain ⟨ws, d, x, y, _, hw0, hws, hd, hx, hy⟩ := matchWsD2_struct hinner
        exact ⟨[c], ws, d, x, y, by rw [← hw, hw0]; rfl, Or.inr ⟨c, rfl, hc⟩, hws, hd, hx, hy⟩
    · rw [if_neg hc, Option.none_orElse] at h
      obtain ⟨ws, d, x, y, _, hw, hws, hd, hx, hy⟩ := matchWsD2_struct h
      exact ⟨[], ws, d, x, y, by simpa using hw, Or.inl rfl, hws, hd, hx, hy⟩

/-- Shape of a successful `matchPcAt`: one or two letters, a digit, then
the `matchOptD2` tail. -/
theorem matchPcAt_struct {alpha alnum : Char → Bool} {l m r : List Char}
    (h : matchPcAt alpha alnum l = some (m, r)) :
    ∃ hd opt ws d x y, m = hd ++ (opt ++ (ws ++ [d, x, y]))
      ∧ ((∃ a d0, hd = [a, d0] ∧ alpha a = true ∧ isDigitC d0 = true)
        ∨ (∃ a b d0, hd = [a, b, d0] ∧ alpha a = true ∧ alpha b = true ∧ isDigitC d0 = true))
      ∧ (opt = [] ∨ ∃ c, opt = [c] ∧ alnum c = true)
      ∧ (∀ c ∈ ws, isSpaceC c = true)
      ∧ isDigitC d = true ∧ alpha x = true ∧ alpha y = true := by
  simp only [matchPcAt] at h
  rcases l with _ | ⟨a, _ | ⟨b, _ | ⟨e, rest⟩⟩⟩
  · simp at h
  · simp at h
  · replace h : ((none : Option (List Char × List Char))
        <|> (if (alpha a && isDigitC b) = true then
          Option.map (fun p => (a :: b :: p.1, p.2)) (matchOptD2 alpha alnum [])
          else none)) = some (m, r) := h
    rw [Option.none_orElse] at h
    by_cases hc : (alpha a && isDigitC b) = true
    · rw [if_pos hc] at h
      cases hop : matchOptD2 alpha alnum ([] : List Char) with
      | none => rw [hop, Option.map_none'] at h; exact absurd h (by simp)
      | some p =>
        rcases p with ⟨w0, r0⟩
        rw [hop, Option.map_some'] at h
        injection h with h1
        rw [Prod.mk.injEq] at h1
        obtain ⟨hw, hr⟩ := h1
        obtain ⟨opt, ws, d, x, y, hw0, hopt, hws, hd, hx, hy⟩ := matchOptD2_struct hop
        simp only [Bool.and_eq_true] at hc
        exact ⟨[a, b], opt, ws, d, x, y, by rw [← hw, hw0]; rfl,
          Or.inl ⟨a, b, rfl, hc.1, hc.2⟩, hopt, hws, hd, hx, hy⟩
    · rw [if_neg hc] at h
      exact absurd h (by simp)
  · replace h : (((if (alpha a && alpha b && isDigitC e) = true then
        Option.map (fun p => (a :: b :: e :: p.1, p.2)) (matchOptD2 alpha alnum rest)
        else none))
        <|> (if (alpha a && isDigitC b) = true then
          Option.map (fun p => (a :: b :: p.1, p.2)) (matchOptD2 alpha alnum (e :: rest))
          else none)) = some (m, r) := h
    by_cases hc2 : (alpha a && alpha b && isDigitC e) = true
    · rw [if_pos hc2] at h
      cases hop : matchOptD2 alpha alnum rest with
      | none =>
        rw [hop, Option.map_none', Option.none_orElse] at h
        by_cases hc1 : (alpha a && isDigitC b) = true
        · rw [if_pos hc1] at h
          cases hop1 : matchOptD2 alpha alnum (e :: rest) with
          | none => rw [hop1, Option.map_none'] at h; exact absurd h (by simp)
          | some p =>
            rcases p with ⟨w0, r0⟩
            rw [hop1, Option.map_some'] at h
            injection h with h1
            rw [Prod.mk.injEq] at h1
            obtain ⟨hw, hr⟩ := h1
            obtain ⟨opt, ws, d, x, y, hw0, hopt, hws, hd, hx, hy⟩ := matchOptD2_struct hop1
            simp only [Bool.and_eq_true] at hc1
            exact ⟨[a, b], opt, ws, d, x, y, by rw [← hw, hw0]; rfl,
              Or.inl ⟨a, b, rfl, hc1.1, hc1.2⟩, hopt, hws, hd, hx, hy⟩
        · rw [if_neg hc1] at h
          exact absurd h (by simp)
      | some p =>
        rcases p with ⟨w0, r0⟩
        rw [hop, Option.map_some', Option.some_orElse] at h
        injection h with h1
        rw [Prod.mk.injEq] at h1
        obtain ⟨hw, hr⟩ := h1
        obtain ⟨opt, ws, d, x, y, hw0, hopt, hws, hd, hx, hy⟩ := matchOptD2_struct hop
        simp only [Bool.and_eq_true] at hc2
        exact ⟨[a, b, e], opt, ws, d, x, y, by rw [← hw, hw0]; rfl,
          Or.inr ⟨a, b, e, rfl, hc2.1.1, hc2.1.2, hc2.2⟩, hopt, hws, hd, hx, hy⟩
    · rw [if_neg hc2, Option.none_orElse] at h
      by_cases hc1 : (alpha a && isDigitC b) = true
      · rw [if_pos hc1] at h
        cases hop1 : matchOptD2 alpha alnum (e :: rest) with
        | none => rw [hop1, Option.map_none'] at h; exact absurd h (by simp)
        | some p =>
          rcases p with ⟨w0, r0⟩
          rw [hop1, Option.map_some'] at h
          injection h with h1
          rw [Prod.mk.injEq] at h1
          obtain ⟨hw, hr⟩ := h1
          obtain ⟨opt, ws, d, x, y, hw0, hopt, hws, hd, hx, hy⟩ := matchOptD2_struct hop1
          simp only [Bool.and_eq_true] at hc1
          exact ⟨[a, b], opt, ws, d, x, y, by rw [← hw, hw0]; rfl,
            Or.inl ⟨a, b, rfl, hc1.1, hc1.2⟩, hopt, hws, hd, hx, hy⟩
      · rw [if_neg hc1] at h
        exact absurd h (by simp)

/-- Helper for `matchPcAt_transfer`: the one-letter alternative transfers. -/
theorem matchPcAt_transfer_one {a b : Char} {w0 r0 : List Char}
    (ha : isAlphaCI a = true) (hb : isDigitC b = true)
    (hop : ∃ l0, matchOptD2 isAlphaCI isAlnumCI l0 = some (w0, r0)) :
    matchPcAt isUpperAlpha isAlnumU (upperList (a :: b :: w0))
      = some (upperList (a :: b :: w0), []) := by
  obtain ⟨l0, hop⟩ := hop
  have OT := matchOptD2_transfer hop
  have hb' : toUpperPy b = b := toUpperPy_digit hb
  have hA : isUpperAlpha (toUpperPy a) = true := toUpperPy_alpha ha
  simp only [upperList, List.map_cons, hb'] at OT ⊢
  cases hw1 : List.map toUpperPy w0 with
  | nil =>
    rw [hw1] at OT
    exact absurd OT (by simp [matchOptD2, matchWsD2])
  | cons w1 wrest =>
    rw [hw1] at OT
    show ((if (isUpperAlpha (toUpperPy a) && isUpperAlpha b && isDigitC w1) = true then
        Option.map (fun p => (toUpperPy a :: b :: w1 :: p.1, p.2))
          (matchOptD2 isUpperAlpha isAlnumU wrest) else none)
      <|> (if (isUpperAlpha (toUpperPy a) && isDigitC b) = true then
        Option.map (fun p => (toUpperPy a :: b :: p.1, p.2))
          (matchOptD2 isUpperAlpha isAlnumU (w1 :: wrest)) else none))
      = some (toUpperPy a :: b :: w1 :: wrest, [])
    rw [if_neg (by simp [isDigitC_not_upper hb]), Option.none_orElse,
      if_pos (by simp [hA, hb]), OT]
    rfl

/-- Helper for `matchPcAt_transfer`: the two-letter alternative transfers. -/
theorem matchPcAt_transfer_two {a b e : Char} {w0 r0 : List Char}
    (ha : isAlphaCI a = true) (hbA : isAlphaCI b = true) (he : isDigitC e = true)
    (hop : ∃ l0, matchOptD2 isAlphaCI isAlnumCI l0 = some (w0, r0)) :
    matchPcAt isUpperAlpha isAlnumU (upperList (a :: b :: e :: w0))
      = some (upperList (a :: b :: e :: w0), []) := by
  obtain ⟨l0, hop⟩ := hop
  have OT := matchOptD2_transfer hop
  have he' : toUpperPy e = e := toUpperPy_digit he
  have hA : isUpperAlpha (toUpperPy a) = true := toUpperPy_alpha ha
  have hB : isUpperAlpha (toUpperPy b) = true := toUpperPy_alpha hbA
  simp only [upperList, List.map_cons, he'] at OT ⊢
  show ((if (isUpperAlpha (toUpperPy a) && isUpperAlpha (toUpperPy b) && isDigitC e) = true then
      Option.map (fun p => (toUpperPy a :: toUpperPy b :: e :: p.1, p.2))
        (matchOptD2 isUpperAlpha isAlnumU (List.map toUpperPy w0)) else none)
    <|> (if (isUpperAlpha (toUpperPy a) && isDigitC (toUpperPy b)) = true then
      Option.map (fun p => (toUpperPy a :: toUpperPy b :: p.1, p.2))
        (matchOptD2 isUpperAlpha isAlnumU (e :: List.map toUpperPy w0)) else none))
    = some (toUpperPy a :: toUpperPy b :: e :: List.map toUpperPy w0, [])
  rw [if_pos (by simp [hA, hB, he]), OT]
  rfl

/-- Transfer of `matchPcAt` to the uppercase anchored matcher: feeding the
upper-cased matched text back in consumes it entirely. -/
theorem matchPcAt_transfer {l m r : List Char}
    (h : matchPcAt isAlphaCI isAlnumCI l = some (m, r)) :
    matchPcAt isUpperAlpha isAlnumU (upperList m) = some (upperList m, []) := by
  simp only [matchPcAt] at h
  rcases l with _ | ⟨a, _ | ⟨b, _ | ⟨e, rest⟩⟩⟩
  · simp at h
  · simp at h
  · replace h : ((none : Option (List Char × List Char))
        <|> (if (isAlphaCI a && isDigitC b) = true then
          Option.map (fun p => (a :: b :: p.1, p.2)) (matchOptD2 isAlphaCI isAlnumCI [])
          else none)) = some (m, r) := h
    rw [Option.none_orElse] at h
    by_cases hc : (isAlphaCI a && isDigitC b) = true
    · rw [if_pos hc] at h
      cases hop : matchOptD2 isAlphaCI isAlnumCI ([] : List Char) with
      | none => rw [hop, Option.map_none'] at h; exact absurd h (by simp)
      | some p =>
        rcases p with ⟨w0, r0⟩
        rw [hop, Option.map_some'] at h
        injection h with h1
        rw [Prod.mk.injEq] at h1
        obtain ⟨hw, hr⟩ := h1
        simp only [Bool.and_eq_true] at hc
        rw [← hw]
        exact matchPcAt_transfer_one hc.1 hc.2 ⟨[], hop⟩
    · rw [if_neg hc] at h
      exact absurd h (by simp)
  · replace h : (((if (isAlphaCI a && isAlphaCI b && isDigitC e) = true then
        Option.map (fun p => (a :: b :: e :: p.1, p.2)) (matchOptD2 isAlphaCI isAlnumCI rest)
        else none))
        <|> (if (isAlphaCI a && isDigitC b) = true then
          Option.map (fun p => (a :: b :: p.1, p.2)) (matchOptD2 isAlphaCI isAlnumCI (e :: rest))
          else none)) = some (m, r) := h
    by_cases hc2 : (isAlphaCI a && isAlphaCI b && isDigitC e) = true
    · rw [if_pos hc2] at h
      cases hop : matchOptD2 isAlphaCI isAlnumCI rest with
      | none =>
        rw [hop, Option.map_none', Option.none_orElse] at h
        by_cases hc1 : (isAlphaCI a && isDigitC b) = true
        · rw [if_pos hc1] at h
          cases hop1 : matchOptD2 isAlphaCI isAlnumCI (e :: rest) with
          | none => rw [hop1, Option.map_none'] at h; exact absurd h (by simp)
          | some p =>
            rcases p with ⟨w0, r0⟩
            rw [hop1, Option.map_some'] at h
            injection h with h1
            rw [Prod.mk.injEq] at h1
            obtain ⟨hw, hr⟩ := h1
            simp only [Bool.and_eq_true] at hc1
            rw [← hw]
            exact matchPcAt_transfer_one hc1.1 hc1.2 ⟨e :: rest, hop1⟩
        · rw [if_neg hc1] at h
          exact absurd h (by simp)
      | some p =>
        rcases p with ⟨w0, r0⟩
        rw [hop, Option.map_some', Option.some_orElse] at h
        injection h with h1
        rw [Prod.mk.injEq] at h1
        obtain ⟨hw, hr⟩ := h1
        simp only [Bool.and_eq_true] at hc2
        rw [← hw]
        exact matchPcAt_transfer_two hc2.1.1 hc2.1.2 hc2.2 ⟨rest, hop⟩
    · rw [if_neg hc2, Option.none_orElse] at h
      by_cases hc1 : (isAlphaCI a && isDigitC b) = true
      · rw [if_pos hc1] at h
        cases hop1 : matchOptD2 isAlphaCI isAlnumCI (e :: rest) with
        | none => rw [hop1, Option.map_none'] at h; exact absurd h (by simp)
        | some p =>
          rcases p with ⟨w0, r0⟩
          rw [hop1, Option.map_some'] at h
          injection h with h1
          rw [Prod.mk.injEq] at h1
          obtain ⟨hw, hr⟩ := h1
          simp only [Bool.and_eq_true] at hc1
          rw [← hw]
          exact matchPcAt_transfer_one hc1.1 hc1.2 ⟨e :: rest, hop1⟩
      · rw [if_neg hc1] at h
        exact absurd h (by simp)

/-- A `findPc` hit comes from a `matchPcAt` hit at some position. -/
theorem findPc_matchPcAt {l pre m : List Char} (h : findPc l = some (pre, m)) :
    ∃ cs r, matchPcAt isAlphaCI isAlnumCI cs = some (m, r) := by
  induction l generalizing pre with
  | nil => simp [findPc] at h
  | cons c rest ih =>
    rw [findPc] at h
    cases hm : matchPcAt isAlphaCI isAlnumCI (c :: rest) with
    | some p =>
      rw [hm] at h
      injection h with h1
      rw [Prod.mk.injEq] at h1
      exact ⟨c :: rest, p.2, by rw [hm, ← h1.2]⟩
    | none =>
      rw [hm] at h
      cases hf : findPc rest with
      | none => rw [hf] at h; simp at h
      | some q =>
        rcases q with ⟨pre0, m0⟩
        rw [hf] at h
        simp only [Option.map_some'] at h
        injection h with h1
        rw [Prod.mk.injEq] at h1
        obtain ⟨hpre, hmm⟩ := h1
        rw [hmm] at hf
        exact ih hf

/-- `toUpperPy` is idempotent. -/
theorem toUpperPy_idem (c : Char) : toUpperPy (toUpperPy c) = toUpperPy c := by
  unfold toUpperPy
  cases hl : upperPairs.lookup c with
  | none => rw [hl]
  | some d =>
    have hmem := lookup_mem hl
    have hnone : ∀ p ∈ upperPairs, upperPairs.lookup p.2 = none := by decide
    rw [hnone _ hmem]

/-- `upperList` is idempotent. -/
theorem upperList_idem (l : List Char) : upperList (upperList l) = upperList l := by
  unfold upperList
  rw [List.map_map]
  exact List.map_congr_left (fun a _ => toUpperPy_idem a)

/-- `stripPy` does nothing when both ends are non-whitespace. -/
theorem stripPy_of_ends {a y : Char} {mid : List Char}
    (ha : isSpaceC a = false) (hy : isSpaceC y = false) :
    stripPy (a :: (mid ++ [y])) = a :: (mid ++ [y]) := by
  unfold stripPy
  rw [List.dropWhile_cons, ha]
  simp only [Bool.false_eq_true, if_neg, reduceIte]
  have hrev : (a :: (mid ++ [y])).reverse = y :: (mid.reverse ++ [a]) := by
    simp
  rw [hrev, List.dropWhile_cons, hy]
  simp only [Bool.false_eq_true, if_neg, reduceIte]
  rw [← hrev, List.reverse_reverse]

/-- The text matched by `findPc`, upper-cased, passes `validate_postcode`. -/
theorem validate_of_findPc {l pre m : List Char} (h : findPc l = some (pre, m)) :
    validate_postcode (String.mk (upperList m)) = true := by
  obtain ⟨cs, r, hcs⟩ := findPc_matchPcAt h
  have htr := matchPcAt_transfer hcs
  obtain ⟨hd, opt, ws, d, x, y, hm, hhd, _, _, _, _, hy⟩ := matchPcAt_struct hcs
  -- the match starts with a letter and ends with a letter
  have hm' : ∃ a t, m = a :: (t ++ [y]) ∧ isAlphaCI a = true := by
    rcases hhd with ⟨a, d0, rfl, ha, _⟩ | ⟨a, b, d0, rfl, ha, _, _⟩
    · exact ⟨a, [d0] ++ (opt ++ (ws ++ [d, x])), by rw [hm]; simp, ha⟩
    · exact ⟨a, [b, d0] ++ (opt ++ (ws ++ [d, x])), by rw [hm]; simp, ha⟩
  obtain ⟨a, t, hmshape, ha⟩ := hm'
  have hstripid : stripPy (upperList m) = upperList m := by
    have hshape2 : upperList (a :: (t ++ [y]))
        = toUpperPy a :: (upperList t ++ [toUpperPy y]) := by
      unfold upperList
      simp
    rw [hmshape, hshape2]
    exact stripPy_of_ends
      (isUpperAlpha_not_space (toUpperPy_alpha ha))
      (isUpperAlpha_not_space (toUpperPy_alpha hy))
  unfold validate_postcode
  show (match matchPcAt isUpperAlpha isAlnumU (upperList (stripPy (upperList m))) with
    | some (_, rest) => rest.isEmpty
    | none => false) = true
  rw [hstripid, upperList_idem, htr]
  rfl

/-! ### Lemmas for filename distinctness (claim C9) -/

/-- A `matchWsD2` hit consumes a prefix: the input splits as match ++ rest. -/
theorem matchWsD2_append {alpha : Char → Bool} {l w r : List Char}
    (h : matchWsD2 alpha l = some (w, r)) : l = w ++ r := by
  obtain ⟨ws, d, x, y, hl, hw, -, -, -, -⟩ := matchWsD2_struct h
  rw [hl, hw]
  simp

/-- A `matchOptD2` hit consumes a prefix. -/
theorem matchOptD2_append {alpha alnum : Char → Bool} {l w r : List Char}
    (h : matchOptD2 alpha alnum l = some (w, r)) : l = w ++ r := by
  simp only [matchOptD2] at h
  cases l with
  | nil =>
    rw [Option.none_orElse] at h
    exact matchWsD2_append h
  | cons c rest =>
    replace h : ((if alnum c = true then
        Option.map (fun p => (c :: p.1, p.2)) (matchWsD2 alpha rest) else none)
        <|> matchWsD2 alpha (c :: rest)) = some (w, r) := h
    by_cases hc : alnum c = true
    · rw [if_pos hc] at h
      cases hinner : matchWsD2 alpha rest with
      | none =>
        rw [hinner, Option.map_none', Option.none_orElse] at h
        exact matchWsD2_append h
      | some p =>
        rcases p with ⟨w0, r0⟩
        rw [hinner] at h
        simp only [Option.map_some', Option.some_orElse] at h
        injection h with h1
        rw [Prod.mk.injEq] at h1
        obtain ⟨hw, hr⟩ := h1
        rw [← hw, ← hr]
        simp [matchWsD2_append hinner]
    · rw [if_neg hc, Option.none_orElse] at h
      exact matchWsD2_append h

/-- A `matchPcAt` hit consumes a prefix. -/
theorem matchPcAt_append {alpha alnum : Char → Bool} {l m r : List Char}
    (h : matchPcAt alpha alnum l = some (m, r)) : l = m ++ r := by
  simp only [matchPcAt] at h
  rcases l with _ | ⟨a, _ | ⟨b, _ | ⟨e, rest⟩⟩⟩
  · simp at h
  · simp at h
  · replace h : ((none : Option (List Char × List Char))
        <|> (if (alpha a && isDigitC b) = true then
          Option.map (fun p => (a :: b :: p.1, p.2)) (matchOptD2 alpha alnum [])
          else none)) = some (m, r) := h
    rw [Option.none_orElse] at h
    by_cases hc : (alpha a && isDigitC b) = true
    · rw [if_pos hc] at h
      cases hop : matchOptD2 alpha alnum ([] : List Char) with
      | none => rw [hop, Option.map_none'] at h; exact absurd h (by simp)
      | some p =>
        rcases p with ⟨w0, r0⟩
        rw [hop, Option.map_some'] at h
        injection h with h1
        rw [Prod.mk.injEq] at h1
        obtain ⟨hw, hr⟩ := h1
        rw [← hw, ← hr]
        simp [← matchOptD2_append hop]
    · rw [if_neg hc] at h
      exact absurd h (by simp)
  · replace h : (((if (alpha a && alpha b && isDigitC e) = true then
        Option.map (fun p => (a :: b :: e :: p.1, p.2)) (matchOptD2 alpha alnum rest)
        else none))
        <|> (if (alpha a && isDigitC b) = true then
          Option.map (fun p => (a :: b :: p.1, p.2)) (matchOptD2 alpha alnum (e :: rest))
          else none)) = some (m, r) := h
    by_cases hc2 : (alpha a && alpha b && isDigitC e) = true
    · rw [if_pos hc2] at h
      cases hop : matchOptD2 alpha alnum rest with
      | none =>
        rw [hop, Option.map_none', Option.none_orElse] at h
        by_cases hc1 : (alpha a && isDigitC b) = true
        · rw [if_pos hc1] at h
          cases hop1 : matchOptD2 alpha alnum (e :: rest) with
          | none => rw [hop1, Option.map_none'] at h; exact absurd h (by simp)
          | some p =>
            rcases p with ⟨w0, r0⟩
            rw [hop1, Option.map_some'] at h
            injection h with h1
            rw [Prod.mk.injEq] at h1
            obtain ⟨hw, hr⟩ := h1
            rw [← hw, ← hr]
            simp [← matchOptD2_append hop1]
        · rw [if_neg hc1] at h
          exact absurd h (by simp)
      | some p =>
        rcases p with ⟨w0, r0⟩
        rw [hop, Option.map_some', Option.some_orElse] at h
        injection h with h1
        rw [Prod.mk.injEq] at h1
        obtain ⟨hw, hr⟩ := h1
        rw [← hw, ← hr]
        simp [← matchOptD2_append hop]
    · rw [if_neg hc2, Option.none_orElse] at h
      by_cases hc1 : (alpha a && isDigitC b) = true
      · rw [if_pos hc1] at h
        cases hop1 : matchOptD2 alpha alnum (e :: rest) with
        | none => rw [hop1, Option.map_none'] at h; exact absurd h (by simp)
        | some p =>
          rcases p with ⟨w0, r0⟩
          rw [hop1, Option.map_some'] at h
          injection h with h1
          rw [Prod.mk.injEq] at h1
          obtain ⟨hw, hr⟩ := h1
          rw [← hw, ← hr]
          simp [← matchOptD2_append hop1]
      · rw [if_neg hc1] at h
        exact absurd h (by simp)

/-- Characters of a collapsed string come from the original or are the
replacement space. -/
theorem collapseWsAux_mem {c : Char} :
    ∀ {b : Bool} {l : List Char}, c ∈ collapseWsAux b l → c ∈ l ∨ c = ' ' := by
  intro b l
  induction l generalizing b with
  | nil => intro h; simp [collapseWsAux] at h
  | cons a rest ih =>
    intro h
    by_cases ha : isSpaceC a = true
    · cases b with
      | true =>
        simp only [collapseWsAux, ha, if_true] at h
        rcases ih h with h1 | h1
        · exact Or.inl (by simp [h1])
        · exact Or.inr h1
      | false =>
        simp only [collapseWsAux, ha, if_true] at h
        rcases List.mem_cons.mp h with h1 | h1
        · exact Or.inr h1
        · rcases ih h1 with h2 | h2
          · exact Or.inl (by simp [h2])
          · exact Or.inr h2
    · simp only [collapseWsAux, ha, Bool.false_eq_true, if_neg, reduceIte] at h
      rcases List.mem_cons.mp h with h1 | h1
      · exact Or.inl (by simp [h1])
      · rcases ih h1 with h2 | h2
        · exact Or.inl (by simp [h2])
        · exact Or.inr h2

/-- Collapsing whitespace preserves the number of non-whitespace
characters. -/
theorem countP_collapseWsAux :
    ∀ (b : Bool) (l : List Char),
      (collapseWsAux b l).countP (fun c => !isSpaceC c)
        = l.countP (fun c => !isSpaceC c) := by
  intro b l
  induction l generalizing b with
  | nil => rfl
  | cons a rest ih =>
    by_cases ha : isSpaceC a = true
    · cases b with
      | true => simp [collapseWsAux, ha, List.countP_cons, ih]
      | false =>
        simp [collapseWsAux, ha, List.countP_cons, ih,
          show isSpaceC ' ' = true from by decide]
    · simp only [collapseWsAux, ha, Bool.false_eq_true, if_neg, reduceIte]
      simp [List.countP_cons, ha, ih]

/-- `toUpperPy` fixes the characters that are illegal in filenames. -/
theorem toUpperPy_illegal {c : Char} (h : illegalFilenameChars.contains c = true) :
    toUpperPy c = c := by
  unfold toUpperPy
  cases hl : upperPairs.lookup c with
  | none => rfl
  | some d =>
    exfalso
    have hmem := lookup_mem hl
    have hdom : ∀ p ∈ upperPairs, illegalFilenameChars.contains p.1 = false := by decide
    have := hdom _ hmem
    simp_all

/-- Shape facts about the (stripped, upper-cased) text of a postcode that
passes validation: every character is an uppercase letter, a digit or
whitespace, and at least five characters are non-whitespace. -/
theorem valid_postcode_shape {pc : String} (h : validate_postcode pc = true) :
    (∀ c ∈ upperList (stripPy pc.data),
      isUpperAlpha c = true ∨ isDigitC c = true ∨ isSpaceC c = true)
    ∧ 5 ≤ (upperList (stripPy pc.data)).countP (fun c => !isSpaceC c) := by
  unfold validate_postcode at h
  set u := upperList (stripPy pc.data) with hu
  cases hm : matchPcAt isUpperAlpha isAlnumU u with
  | none => rw [hm] at h; simp at h
  | some p =>
    rcases p with ⟨m, rest⟩
    rw [hm] at h
    replace h : rest.isEmpty = true := h
    have hre : rest = [] := by
      cases rest
      · rfl
      · simp at h
    subst hre
    have happ : u = m := by
      have := matchPcAt_append hm
      simpa using this
    obtain ⟨hd, opt, ws, d, x, y, hms, hhd, hopt, hws, hdd, hx, hy⟩ := matchPcAt_struct hm
    have hclass : ∀ c ∈ m, isUpperAlpha c = true ∨ isDigitC c = true ∨ isSpaceC c = true := by
      intro c hc
      rw [hms] at hc
      rcases List.mem_append.mp hc with hc | hc
      · rcases hhd with ⟨a, d0, hhd1, ha, hd0⟩ | ⟨a, b, d0, hhd1, ha, hb, hd0⟩ <;>
          rw [hhd1] at hc <;> simp only [List.mem_cons, List.not_mem_nil, or_false] at hc
        · rcases hc with rfl | rfl
          · exact Or.inl ha
          · exact Or.inr (Or.inl hd0)
        · rcases hc with rfl | rfl | rfl
          · exact Or.inl ha
          · exact Or.inl hb
          · exact Or.inr (Or.inl hd0)
      rcases List.mem_append.mp hc with hc | hc
      · rcases hopt with rfl | ⟨c0, rfl, hc0⟩
        · simp at hc
        · simp only [List.mem_singleton] at hc
          subst hc
          rcases Bool.or_eq_true_iff.mp hc0 with h1 | h1
          · exact Or.inl h1
          · exact Or.inr (Or.inl h1)
      rcases List.mem_append.mp hc with hc | hc
      · exact Or.inr (Or.inr (hws c hc))
      · simp only [List.mem_cons, List.not_mem_nil, or_false] at hc
        rcases hc with rfl | rfl | rfl
        · exact Or.inr (Or.inl hdd)
        · exact Or.inl hx
        · exact Or.inl hy
    have hcount : 5 ≤ m.countP (fun c => !isSpaceC c) := by
      rw [hms]
      simp only [List.countP_append]
      have h3 : ([d, x, y] : List Char).countP (fun c => !isSpaceC c) = 3 := by
        simp [List.countP_cons, isDigitC_not_space hdd,
          isUpperAlpha_not_space hx, isUpperAlpha_not_space hy]
      have h2 : 2 ≤ hd.countP (fun c => !isSpaceC c) := by
        rcases hhd with ⟨a, d0, hhd1, ha, hd0⟩ | ⟨a, b, d0, hhd1, ha, hb, hd0⟩ <;>
          subst hhd1 <;>
          simp [List.countP_cons, isUpperAlpha_not_space, isDigitC_not_space, ha, hd0]
      omega
    rw [happ]
    exact ⟨hclass, hcount⟩

/-- The sanitized form of a validated postcode contains no period and has
at least four characters. -/
theorem sanitize_of_valid {pc : String} (h : validate_postcode pc = true) :
    ('.' ∉ sanitize_component pc.data) ∧ 4 ≤ (sanitize_component pc.data).length := by
  obtain ⟨hclass, hcount⟩ := valid_postcode_shape h
  set t := stripPy pc.data with ht
  have htn : t ≠ [] := by
    intro h0
    rw [h0] at hcount
    simp [upperList] at hcount
  have hpc : pc.data ≠ [] := by
    intro h0
    rw [ht, h0] at htn
    exact htn rfl
  have hsan : sanitize_component pc.data = removeIllegal (collapseWs t) := by
    unfold sanitize_component
    rw [if_neg (by simpa using hpc)]
  have hdotu : ('.' : Char) ∉ upperList t := by
    intro hmem
    rcases hclass _ hmem with h1 | h1 | h1 <;> simp [isUpperAlpha, isDigitC, isSpaceC] at h1
  have hdott : ('.' : Char) ∉ t := by
    intro hmem
    exact hdotu (by
      have : toUpperPy '.' = '.' := by decide
      rw [← this]
      exact List.mem_map_of_mem toUpperPy hmem)
  have hnoill : removeIllegal (collapseWs t) = collapseWs t := by
    unfold removeIllegal
    rw [List.filter_eq_self]
    intro c hc
    rcases collapseWsAux_mem hc with h1 | h1
    · cases hcontains : illegalFilenameChars.contains c
      · simp
      · exfalso
        have hcu : toUpperPy c ∈ upperList t := List.mem_map_of_mem toUpperPy h1
        rw [toUpperPy_illegal hcontains] at hcu
        have hcl := hclass _ hcu
        have hcm : c ∈ illegalFilenameChars := List.elem_iff.mp hcontains
        simp only [illegalFilenameChars, List.mem_cons, List.not_mem_nil, or_false] at hcm
        rcases hcm with rfl|rfl|rfl|rfl|rfl|rfl|rfl|rfl|rfl <;>
          simp [isUpperAlpha, isDigitC, isSpaceC] at hcl
    · subst h1
      decide
  rw [hsan, hnoill]
  constructor
  · intro hmem
    rcases collapseWsAux_mem hmem with h1 | h1
    · exact hdott h1
    · simp at h1
  · have hcnt2 : (collapseWs t).countP (fun c => !isSpaceC c)
        = t.countP (fun c => !isSpaceC c) := countP_collapseWsAux false t
    have hcnt3 : (upperList t).countP (fun c => !isSpaceC c)
        = t.countP (fun c => !isSpaceC c) := by
      unfold upperList
      rw [List.countP_map]
      apply List.countP_congr
      intro c _
      simp [Function.comp, isSpaceC_toUpperPy]
    have hle := List.countP_le_length (p := fun c => !isSpaceC c) (l := collapseWs t)
    omega

/-- Joining with a trailing singleton: the last part is appended after a
prefix that only depends on the earlier parts. -/
theorem joinSep_append_singleton (sep x : List Char) :
    ∀ F : List (List Char),
      joinSep sep (F ++ [x])
        = (if F.isEmpty then [] else joinSep sep F ++ sep) ++ x := by
  intro F
  induction F with
  | nil => simp [joinSep]
  | cons f fs ih =>
    cases fs with
    | nil => simp [joinSep]
    | cons g gs =>
      have : joinSep sep ((f :: g :: gs) ++ [x])
          = f ++ sep ++ joinSep sep ((g :: gs) ++ [x]) := rfl
      rw [this, ih]
      simp [joinSep, List.append_assoc]

/-- A suffix of an append no longer than the right part is a suffix of the
right part. -/
theorem suffix_of_append_right {t x y : List Char}
    (h : t <:+ x ++ y) (hlen : t.length ≤ y.length) : t <:+ y := by
  have h1 : t = (x ++ y).drop ((x ++ y).length - t.length) :=
    List.suffix_iff_eq_drop.mp h
  rw [List.length_append] at h1
  have harith : x.length + y.length - t.length = x.length + (y.length - t.length) := by
    omega
  rw [harith, List.drop_append] at h1
  rw [List.suffix_iff_eq_drop]
  exact h1

/-- The base filename (joined parts ending with a sanitized validated
postcode) never ends with `.pdf` case-insensitively. -/
theorem base_no_pdf_suffix {P0 s : List Char}
    (hdot : ('.' : Char) ∉ s) (hlen : 4 ≤ s.length) :
    ".pdf".data.isSuffixOf (lowerList (P0 ++ s)) = false := by
  cases hsuf : ".pdf".data.isSuffixOf (lowerList (P0 ++ s))
  · rfl
  · exfalso
    have hsuffix : ".pdf".data <:+ lowerList (P0 ++ s) :=
      List.isSuffixOf_iff_suffix.mp hsuf
    rw [show lowerList (P0 ++ s) = lowerList P0 ++ lowerList s from by
      unfold lowerList; simp] at hsuffix
    have hsf : ".pdf".data <:+ lowerList s :=
      suffix_of_append_right hsuffix (by simp [lowerList, hlen])
    have hdotmem : ('.' : Char) ∈ lowerList s := hsf.subset (by decide)
    obtain ⟨c, hc, hcl⟩ := List.mem_map.mp hdotmem
    exact hdot (by rw [← toLowerPy_eq_dot hcl]; exact hc)

/-- The part of a generated filename contributed by the address lines. -/
def filenamePrefix (lines : List String) : List Char :=
  let F := (((lines.take 6).filter (fun l => !l.data.isEmpty)).map
    (fun l => sanitize_component l.data)).filter (fun p => !p.isEmpty)
  if F.isEmpty then [] else joinSep ", ".data F ++ ", ".data

/-- For a nonempty postcode whose sanitized form is period-free and at
least four characters long, the generated filename is the line-derived
prefix, then the sanitized postcode, then `.pdf`. -/
theorem generate_filename_shape (lines : List String) (pc : String)
    (hne : pc.data ≠ [])
    (hdot : ('.' : Char) ∉ sanitize_component pc.data)
    (hlen : 4 ≤ (sanitize_component pc.data).length) :
    generate_filename ⟨lines, pc⟩
      = String.mk ((filenamePrefix lines ++ sanitize_component pc.data)
          ++ ".pdf".data) := by
  have hsne : (sanitize_component pc.data).isEmpty = false := by
    cases hsi : (sanitize_component pc.data).isEmpty
    · rfl
    · rw [List.isEmpty_iff] at hsi
      rw [hsi] at hlen
      simp at hlen
  unfold generate_filename filenamePrefix
  dsimp only
  rw [if_neg (show ¬pc.data.isEmpty = true from by simpa using hne)]
  rw [List.filter_append]
  rw [show List.filter (fun p => !p.isEmpty) [sanitize_component pc.data]
      = [sanitize_component pc.data] from by simp [List.filter, hsne]]
  rw [joinSep_append_singleton]
  rw [base_no_pdf_suffix hdot hlen]
  simp

/-- Claim C9 (amended): `generate_filename` is deterministic, and two
address records that differ only in their postcode produce different
filenames provided both postcodes pass `validate_postcode` and their
sanitized forms differ (sanitization collapses whitespace, so e.g.
`GU18 5UH` and `GU18  5UH` would otherwise collide). -/
theorem c9_filename_determinism_distinctness (addr : AddressDict)
    (lines : List String) (pc1 pc2 : String)
    (h1 : validate_postcode pc1 = true) (h2 : validate_postcode pc2 = true)
    (hs : sanitize_component pc1.data ≠ sanitize_component pc2.data) :
    generate_filename addr = generate_filename addr
    ∧ generate_filename ⟨lines, pc1⟩ ≠ generate_filename ⟨lines, pc2⟩ := by
  refine ⟨rfl, ?_⟩
  obtain ⟨hdot1, hlen1⟩ := sanitize_of_valid h1
  obtain ⟨hdot2, hlen2⟩ := sanitize_of_valid h2
  have hpc1ne : pc1.data ≠ [] := by
    intro h0
    unfold sanitize_component at hlen1
    rw [h0] at hlen1
    simp at hlen1
  have hpc2ne : pc2.data ≠ [] := by
    intro h0
    unfold sanitize_component at hlen2
    rw [h0] at hlen2
    simp at hlen2
  rw [generate_filename_shape lines pc1 hpc1ne hdot1 hlen1,
      generate_filename_shape lines pc2 hpc2ne hdot2 hlen2]
  intro hcontra
  have hdata : (filenamePrefix lines ++ sanitize_component pc1.data) ++ ".pdf".data
      = (filenamePrefix lines ++ sanitize_component pc2.data) ++ ".pdf".data :=
    congrArg String.data hcontra
  have hbase : filenamePrefix lines ++ sanitize_component pc1.data
      = filenamePrefix lines ++ sanitize_component pc2.data :=
    List.append_cancel_right hdata
  exact hs (List.append_cancel_left hbase)

/-- Witness for C9: two records with no address lines and distinct valid
postcodes get distinct filenames. -/
theorem c9_witness :
    generate_filename ⟨[], "GU18 5UH"⟩ ≠ generate_filename ⟨[], "ME14 1XX"⟩ :=
  (c9_filename_determinism_distinctness ⟨[], "GU18 5UH"⟩ [] "GU18 5UH" "ME14 1XX"
    (by decide) (by decide) (by decide)).2

/-- Counterexample to C9 as stated: two address records that differ only in
their postcode field (`"GU18 5UH"` vs `"GU18  5UH"`, distinct strings)
receive the identical filename, because sanitization collapses internal
whitespace before the postcode is joined into the name. -/
theorem c9_counterexample :
    ("GU18 5UH" : String) ≠ "GU18  5UH"
    ∧ generate_filename ⟨["52 Ambleside Road"], "GU18 5UH"⟩
      = generate_filename ⟨["52 Ambleside Road"], "GU18  5UH"⟩ :=
  ⟨by decide, by decide⟩

end Wayleave

namespace Wayleave

/-! ## Claim theorems -/

/-- The C1 scenario text with the names on a line of their own, as in the
wayleave documents the annual extractor is written for. -/
def annualScenarioMultiline : String :=
  "Re: Electrical Equipment\nI/We, JOHN SMITH AND JANE DOE\nof 52 Ambleside Road, Lightwater, Surrey GU18 5UH being the grantor"

/-- The C1 scenario text containing the quoted passage verbatim on one
line. -/
def annualScenarioOneLine : String :=
  "Re: Electrical Equipment ELECTRICITY ACT 1989 I/We, JOHN SMITH AND JANE DOE of 52 Ambleside Road, Lightwater, Surrey GU18 5UH being the grantor of this wayleave"

set_option maxRecDepth 40000 in
/-- Claim C1, as stated, is false: a text containing the marker and the
quoted passage verbatim (hence on a single line) makes the `I/We,`
capture `[^\n]+` swallow the address, so the extracted full names are not
`JOHN SMITH AND JANE DOE`. -/
theorem c1_counterexample :
    containsSubstr annualScenarioOneLine "Re: Electrical Equipment" = true
    ∧ containsSubstr annualScenarioOneLine
        "I/We, JOHN SMITH AND JANE DOE of 52 Ambleside Road, Lightwater, Surrey GU18 5UH being" = true
    ∧ (extract_names_and_address_annual annualScenarioOneLine).map ExtractedInfo.full_names
        ≠ .ok "JOHN SMITH AND JANE DOE" := by
  refine ⟨by decide, by decide, ?_⟩
  decide

set_option maxRecDepth 40000 in
/-- Claim C1 (amended): for the annual dialect, extracting from text that
contains the marker `Re: Electrical Equipment` and the passage with a line
break between the names and the `of <address>` segment returns full names
`JOHN SMITH AND JANE DOE`, address lines `52 Ambleside Road` /
`Lightwater` / `Surrey`, postcode `GU18 5UH`, and `generate_filename` on
that address yields `52 Ambleside Road, Lightwater, Surrey, GU18 5UH.pdf`. -/
theorem c1_annual_end_to_end :
    extract_names_and_address_annual annualScenarioMultiline
      = .ok ⟨"JOHN SMITH AND JANE DOE", "John and Jane",
          ⟨["52 Ambleside Road", "Lightwater", "Surrey"], "GU18 5UH"⟩⟩
    ∧ generate_filename ⟨["52 Ambleside Road", "Lightwater", "Surrey"], "GU18 5UH"⟩
      = "52 Ambleside Road, Lightwater, Surrey, GU18 5UH.pdf" := by
  constructor
  · decide
  · decide

/-- Claim C2, as stated, is false: for three names the salutation has no
comma before the final `and` — `format_names "A AND B AND C"` yields
`A, B and C`, not the claimed `A, B, and C`. -/
theorem c2_counterexample :
    format_names "A AND B AND C" = .ok ("A & B & C", "A, B and C")
    ∧ ("A, B and C" : String) ≠ "A, B, and C" := by
  constructor
  · decide
  · decide

/-- Claim C2 (amended): `format_names` produces the salutation `A and B`
for exactly two input names, and for three or more names a comma-separated
list whose final name is preceded by `and` without a comma:
`format_names "JOHN SMITH AND JANE DOE"` yields salutation `John and Jane`
and `format_names "A AND B AND C"` yields salutation `A, B and C`. -/
theorem c2_salutations :
    (format_names "JOHN SMITH AND JANE DOE").map Prod.snd = .ok "John and Jane"
    ∧ (format_names "A AND B AND C").map Prod.snd = .ok "A, B and C" := by
  constructor
  · decide
  · decide

/-- Claim C3 names the intended behaviour, but the code loses the
`ValidationError`: `validate_content` itself raises it, yet the annual
extractor's blanket `except Exception` clause re-raises it as a
`ContentError` (`ValidationError` is not a `ContentError` subclass), and
the 15-year extractor never calls `validate_content` at all, failing with
a `ContentError` from its `(1)` pattern.  Evaluated at the failing input
`""`. -/
theorem c3_validation_swallowed :
    validate_content "" "annual" = .error (.validation "Document content is empty or invalid")
    ∧ validate_content "" "15-year" = .error (.validation "Document content is empty or invalid")
    ∧ extract_names_and_address_annual ""
        = .error (.content "Error processing annual document: Document content is empty or invalid")
    ∧ extract_names_and_address_fifteen_year ""
        = .error (.content "Could not find names and address in 15-year document") := by
  refine ⟨by decide, by decide, by decide, by decide⟩

/-- Claim C10: in `identify_wayleave_type`, the `£ per annum` override
takes precedence — any document text containing that phrase is classified
`annual`, whatever the indicator counts are. -/
theorem c10_per_annum_override (content : String)
    (h : containsSubstr content "£ per annum" = true) :
    identify_wayleave_type content = "annual" := by
  unfold identify_wayleave_type
  simp only [containsSubstr] at h
  simp [h]

/-- A concrete text containing `£ per annum` but strictly more 15-year
indicator phrases than annual ones. -/
def perAnnumText : String :=
  "the Term lasts 15 years with the Wayleave Payment at £ per annum"

/-- The decision step of `analyze_pdf_type`, re-expressed through the
score functions (the `let`-bound counts in `analyze_pdf_type` are
definitionally the bodies of `mapScore` / `docScore`). -/
theorem analyze_pdf_type_eq (tess : Bool) (pdf : PDFFile) :
    analyze_pdf_type tess pdf =
      (if mapScore tess pdf > docScore tess pdf && mapScore tess pdf ≥ 3 then PDFType.map
       else if docScore tess pdf > mapScore tess pdf && docScore tess pdf ≥ 3 then
         PDFType.document
       else PDFType.unknown) := rfl

/-- Claim C4: the PDF type classifier returns MAP iff the combined map
score strictly exceeds the combined document score and is at least 3;
DOCUMENT iff the document score strictly exceeds the map score and is at
least 3; UNKNOWN in every other case. -/
theorem c4_classifier_decision (tess : Bool) (pdf : PDFFile) :
    (analyze_pdf_type tess pdf = PDFType.map
      ↔ mapScore tess pdf > docScore tess pdf ∧ mapScore tess pdf ≥ 3)
    ∧ (analyze_pdf_type tess pdf = PDFType.document
      ↔ docScore tess pdf > mapScore tess pdf ∧ docScore tess pdf ≥ 3)
    ∧ (analyze_pdf_type tess pdf = PDFType.unknown
      ↔ ¬ (mapScore tess pdf > docScore tess pdf ∧ mapScore tess pdf ≥ 3)
        ∧ ¬ (docScore tess pdf > mapScore tess pdf ∧ docScore tess pdf ≥ 3)) := by
  rw [analyze_pdf_type_eq tess pdf]
  generalize mapScore tess pdf = m
  generalize docScore tess pdf = d
  split_ifs with h1 h2 <;> simp_all
  omega

/-- The `except`-wrapper cannot turn an error into a success. -/
theorem wrapExtractorErrors_ok {pfx : String} {e : Except PyErr ExtractedInfo}
    {rec : ExtractedInfo} (h : wrapExtractorErrors pfx e = .ok rec) : e = .ok rec := by
  cases e with
  | ok r => exact h
  | error err => cases err <;> simp [wrapExtractorErrors] at h

/-- Claim C8: every address record produced by either extractor carries a
postcode that passes `validate_postcode` (it is the upper-cased text of a
postcode-pattern match, which the anchored validation regex accepts in
full). -/
theorem c8_extractor_postcodes_valid (content : String) (rec : ExtractedInfo)
    (h : extract_names_and_address_annual content = .ok rec
      ∨ extract_names_and_address_fifteen_year content = .ok rec) :
    validate_postcode rec.address.postcode = true := by
  rcases h with h | h
  · unfold extract_names_and_address_annual at h
    replace h := wrapExtractorErrors_ok h
    split at h
    · exact absurd h (by simp)
    · split at h
      · exact absurd h (by simp)
      · split at h
        · exact absurd h (by simp)
        · dsimp only at h
          split at h
          · exact absurd h (by simp)
          next pre m hfind =>
            injection h with h1
            rw [← h1]
            exact validate_of_findPc hfind
  · unfold extract_names_and_address_fifteen_year at h
    replace h := wrapExtractorErrors_ok h
    split at h
    · exact absurd h (by simp)
    · dsimp only at h
      split at h
      · exact absurd h (by simp)
      next pre m hfind =>
        injection h with h1
        rw [← h1]
        exact validate_of_findPc hfind

set_option maxRecDepth 40000 in
/-- Witness for C8: the annual end-to-end scenario yields the postcode
`GU18 5UH`, which `validate_postcode` accepts. -/
theorem c8_witness : validate_postcode "GU18 5UH" = true :=
  c8_extractor_postcodes_valid annualScenarioMultiline
    ⟨"JOHN SMITH AND JANE DOE", "John and Jane",
      ⟨["52 Ambleside Road", "Lightwater", "Surrey"], "GU18 5UH"⟩⟩
    (Or.inl (by decide))

/-- An unclassifiable PDF whose filename contains `plan`. -/
def planPdf : PDFFile := ⟨"plan.pdf", "", false, []⟩

/-- Claim C5, as stated, is false: a PDF classified UNKNOWN does not stay
in `additionalPdfs` — the filename fallback promotes it into the map slot
(`plan.pdf` with empty text is UNKNOWN yet becomes the folder's map). -/
theorem c5_counterexample :
    analyze_pdf_type false planPdf = PDFType.unknown
    ∧ get_pdf_files false [planPdf] = ⟨none, some planPdf, []⟩ := by
  constructor
  · decide
  · decide

/-- Claim C5 (amended): the folder pass is single-pass greedy — the first
PDF classified MAP fills the map slot, the first classified DOCUMENT the
document slot, all others land in `additionalPdfs` in order — followed by
a filename fallback: an empty map (resp. document) slot is filled with the
first additional PDF whose lowercase name contains one of
`lv.`/`layout`/`map`/`plan` (resp. `consent`/`agreement`/`contract`),
removed from `additionalPdfs`.  At most one `documentPdf` and one `mapPdf`
result (the slots are `Option`-valued in `greedySpec`). -/
theorem c5_folder_greedy (tess : Bool) (pdfs : List PDFFile) :
    get_pdf_files tess pdfs = greedySpec tess pdfs :=
  get_pdf_files_eq_greedySpec tess pdfs

/-- Claim C6: scanning is idempotent — running the scanner again on the
tree left by a first run produces the identical result list (same relative
paths, same `PDFPair` contents) and the identical tree, so the processed
marker is written at most once per folder; and a directory is included in
the result (its own entry has the empty relative path) exactly when it
yields any PDF or already carries the processed marker. -/
theorem c6_scan_idempotent (tess : Bool) (t : FSTree) :
    scanDir tess (scanDir tess t).2 = scanDir tess t
    ∧ (scanDir tess t).1.any (fun e => e.1.isEmpty)
        = (!t.getPdfs.isEmpty || t.getMarker) :=
  ⟨scanDir_idem tess t, scanDir_root_included tess t⟩

/-- The merged/print artifact the GUI writes into the scanned tree. -/
def printPdf : PDFFile := ⟨"Print.pdf", "", false, []⟩

/-- Claim C7, as stated, is false: `get_pdf_files` applies no
filename-based exclusion, so the scanner's own `Print.pdf` output shows up
in the folder's `PDFPair` (here in `additionalPdfs`). -/
theorem c7_counterexample :
    printPdf.name = "Print.pdf"
    ∧ get_pdf_files false [printPdf] = ⟨none, none, [printPdf]⟩ := by
  constructor
  · rfl
  · decide

/-- Claim C7 (amended): the scanner excludes nothing by filename — for
every folder the PDFs in the resulting `PDFPair` (document slot, map slot
and `additionalPdfs` together) are exactly a permutation of the folder's
PDF files, so a generated `Print.pdf` in the folder is classified like any
other PDF and appears in the pair. -/
theorem c7_no_exclusion (tess : Bool) (pdfs : List PDFFile) :
    (pairList (get_pdf_files tess pdfs)).Perm pdfs :=
  pairList_get_perm tess pdfs

/-- Witness for C10: on `perAnnumText` (which matches three 15-year
indicators against one annual indicator) the classifier still answers
`annual`. -/
theorem c10_witness :
    identify_wayleave_type perAnnumText = "annual"
    ∧ (fifteenYearIndicators.filter
        (fun i => containsSub i.data perAnnumText.data)).length
      > (annualIndicators.filter
        (fun i => containsSub i.data perAnnumText.data)).length :=
  ⟨c10_per_annum_override perAnnumText (by decide), by decide⟩

end Wayleave
